import Mathlib

/-!
Shallow embedding of the idendro dendrogram reconstruction core
(`src/src/base_dendro.py`, `src/idendro/clustering_data.py`,
`src/idendro/containers.py`).

Python floats are modelled as rationals, numpy integer ids as naturals,
flat-cluster labels as integers.  Python `dict`s are modelled as
association lists with Python insertion semantics (`pyDictInsert`): a new
key is appended, an existing key is updated in place, so iteration order
matches insertion order exactly as in CPython.  Exceptions are modelled by
`Except`/`Option`-typed results; since `BaseDendro.node_dict` is a mutable
class attribute that survives a raised exception, every build function also
returns the registry state reached at the moment of the failure.
-/

namespace Idendro

/-- One bracket row of `icoord`/`dcoord`: four coordinates per merge link. -/
structure Quad where
  q0 : ℚ
  q1 : ℚ
  q2 : ℚ
  q3 : ℚ
deriving DecidableEq, Repr

/-- Python dict lookup `d[k]` (returning `none` instead of raising `KeyError`). -/
def pyGet {α β : Type} [DecidableEq α] (d : List (α × β)) (k : α) : Option β :=
  (d.find? (fun p => decide (p.1 = k))).map Prod.snd

/-- Python dict assignment `d[k] = v`: update in place if the key exists,
append otherwise (CPython keeps insertion order). -/
def pyDictInsert {α β : Type} [DecidableEq α] (d : List (α × β)) (k : α) (v : β) :
    List (α × β) :=
  if d.any (fun p => decide (p.1 = k)) then
    d.map (fun p => if p.1 = k then (k, v) else p)
  else d ++ [(k, v)]

/-- Python `dict(pairs)`: left-to-right insertion, later duplicates overwrite. -/
def pyDict {α β : Type} [DecidableEq α] (l : List (α × β)) : List (α × β) :=
  l.foldl (fun d p => pyDictInsert d p.1 p.2) []

/-- Python `zip` over three sequences (truncates to the shortest). -/
def zip3 {α β γ : Type} : List α → List β → List γ → List (α × β × γ)
  | a :: as, b :: bs, c :: cs => (a, b, c) :: zip3 as bs cs
  | _, _, _ => []

/-- `idendro.containers.ClusterNode` (dataclass), with its field defaults. -/
structure ClusterNode where
  x : ℚ
  y : ℚ
  type : String
  id : ℕ
  cluster_id : Option ℤ
  edgecolor : String
  label : String := ""
  hovertext : List (String × String) := []
  fillcolor : String := "#fff"
  radius : ℚ := 7
  opacity : ℚ := 1
  labelsize : ℚ := 10
  labelcolor : String := "#fff"
deriving DecidableEq, Repr

/-- `idendro.containers.ClusterLink` (dataclass), style fields defaulted. -/
structure ClusterLink where
  x : Quad
  y : Quad
  fillcolor : String
  id : Option ℕ := none
  children_id : Option (ℕ × ℕ) := none
  cluster_id : Option ℤ := none
  strokewidth : ℚ := 1
deriving DecidableEq, Repr

/-- `idendro.containers.AxisLabel` (dataclass). -/
structure AxisLabel where
  x : ℚ
  label : String
  labelAngle : ℚ := 0
deriving DecidableEq, Repr

/-- `idendro.containers.Dendrogram` (dataclass).  Note `computed_nodes`
defaults to `true` exactly as in the dataclass definition. -/
structure Dendrogram where
  axis_labels : List AxisLabel
  links : List ClusterLink
  nodes : List ClusterNode
  computed_nodes : Bool := true
  x_domain : ℚ × ℚ := (0, 0)
  y_domain : ℚ × ℚ := (0, 0)
deriving DecidableEq, Repr

/-- `Dendrogram.check_nodes`: raises (here `Except.error`) when nodes are
requested but were not computed. -/
def check_nodes (d : Dendrogram) (show_nodes : Bool) : Except String Unit :=
  if show_nodes ∧ ¬ d.computed_nodes then
    .error "Nodes were not computed in create_dendrogram() step, cannot show them"
  else .ok ()

/-- `idendro.clustering_data.ClusteringData`.  `linkage_matrix` rows are
`(childA, childB, distance, memberCount)`.  `leaders`/`flat_cluster_ids`
model the cached result of `get_leaders()` (either passed to the
constructor or computed once by the external
`scipy.cluster.hierarchy.leaders`, which is outside this repository). -/
structure ClusteringData where
  linkage_matrix : List (ℕ × ℕ × ℚ × ℕ)
  cluster_assignments : List ℤ
  threshold : ℚ
  leaders : List ℕ
  flat_cluster_ids : List ℤ
deriving DecidableEq, Repr

/-- `ClusteringData.get_merge_map`: zips the ordered child-id pairs of the
linkage rows with `numpy.arange(N, 2N-1)` and builds a Python dict. -/
def get_merge_map (cd : ClusteringData) : List ((ℕ × ℕ) × ℕ) :=
  let component_ids := cd.linkage_matrix.map (fun r => (r.1, r.2.1))
  let merged_ids :=
    (List.range (cd.linkage_matrix.length)).map
      (fun k => cd.linkage_matrix.length + 1 + k)
  pyDict (component_ids.zip merged_ids)

/-- Instance-level attribute state of `BaseDendro` (the coordinate arrays,
colors, labels and clustering data; the coordinate registry `node_dict` is
a class attribute mutated in place and is therefore passed separately). -/
structure InstanceData where
  cluster_data : Option ClusteringData := none
  icoord : List Quad := []
  dcoord : List Quad := []
  link_colors : List String := []
  leaf_labels : List String := []
  leaf_positions : List ℚ := []
  leaves : List ℕ := []
  leaves_color_list : List String := []
  color_scheme : List (String × String) := []
deriving DecidableEq

/-- The shared class-attribute registry `BaseDendro.node_dict`. -/
abbrev NodeDict := List ((ℚ × ℚ) × ClusterNode)

/-- Python exceptions of the build pipeline. -/
inductive PyErr where
  /-- `RuntimeError` when `cluster_data` was never provided. -/
  | missingClusterData
  /-- `KeyError` on the coordinate registry `node_dict`. -/
  | coordKey (c : ℚ × ℚ)
  /-- `KeyError` on the merge map. -/
  | pairKey (p : ℕ × ℕ)
  /-- `KeyError` on the color scheme. -/
  | colorKey (s : String)
  /-- `IndexError` from `flat_cluster_ids[leaders == merged_id][0]`. -/
  | indexError
  /-- `AssertionError` from the `sort_criteria` assertion. -/
  | assertionError
  /-- `AttributeError` from `_set_scipy_dendrogram` listing missing keys. -/
  | missingKeys (ks : List String)
deriving DecidableEq, Repr

/-- Node label callback, `Callable[[ClusteringData, ClusterNode], str]`. -/
abbrev LabelF := ClusteringData → ClusterNode → String

/-- Node hover callback, producing a `Dict[str, str]`. -/
abbrev HoverF := ClusteringData → ClusterNode → List (String × String)

/-- The two callback assignments performed on a freshly built node:
`p.label = node_label_func(cd, p) if ... else ""` and then
`p.hovertext = node_hover_func(cd, p) if ... else {}` (the hover callback
sees the node with its label already set).  Also reports how many times
each callback was invoked (0 or 1). -/
def applyCallbacks (cd : ClusteringData) (lf : Option LabelF) (hf : Option HoverF)
    (p : ClusterNode) : ClusterNode × ℕ × ℕ :=
  let p1 := { p with label := match lf with | some f => f cd p | none => "" }
  let p2 := { p1 with hovertext := match hf with | some f => f cd p1 | none => [] }
  (p2, (if lf.isSome then 1 else 0), (if hf.isSome then 1 else 0))

/-- The leaf-seeding loop of `BaseDendro._nodes` (lines 247-265): one
`leaf` node per `zip(leaf_positions, leaves, leaves_color_list)` row,
registered under `(xcoord, 0)`.  Returns the registry and callback
counters reached when the loop stops (also on error, since the registry
is mutated in place). -/
def processLeaves (cd : ClusteringData) (scheme : List (String × String))
    (lf : Option LabelF) (hf : Option HoverF) :
    List (ℚ × ℕ × String) → NodeDict → ℕ → ℕ →
      (Except PyErr Unit) × NodeDict × ℕ × ℕ
  | [], d, lc, hc => (.ok (), d, lc, hc)
  | (xcoord, leaf_id, color) :: rest, d, lc, hc =>
    match pyGet scheme color with
    | none => (.error (.colorKey color), d, lc, hc)
    | some col =>
      let p : ClusterNode :=
        { x := xcoord, y := 0, edgecolor := col, fillcolor := col, radius := 4,
          type := "leaf", cluster_id := none, id := leaf_id }
      let r := applyCallbacks cd lf hf p
      processLeaves cd scheme lf hf rest
        (pyDictInsert d (xcoord, 0) r.1) (lc + r.2.1) (hc + r.2.2)

/-- One iteration of the merge loop of `BaseDendro._nodes` (lines 273-306):
look up the two children by their foot coordinates (right first, as in the
source), resolve the merged id through the merge map, classify, color,
run the callbacks and register the node under the shoulder midpoint. -/
def processMerge (cd : ClusteringData) (scheme : List (String × String))
    (mm : List ((ℕ × ℕ) × ℕ)) (lf : Option LabelF) (hf : Option HoverF)
    (d : NodeDict) (x y : Quad) (color : String) :
    Except PyErr (NodeDict × ClusterNode × ℕ × ℕ) :=
  let left_coords : ℚ × ℚ := (x.q0, y.q0)
  let right_coords : ℚ × ℚ := (x.q3, y.q3)
  match pyGet d right_coords with
  | none => .error (.coordKey right_coords)
  | some right_leaf =>
    match pyGet d left_coords with
    | none => .error (.coordKey left_coords)
    | some left_leaf =>
      match pyGet mm (left_leaf.id, right_leaf.id) with
      | none => .error (.pairKey (left_leaf.id, right_leaf.id))
      | some merged_id =>
        let cls : Except PyErr (String × Option ℤ) :=
          if merged_id ∈ cd.leaders then
            match (cd.leaders.zip cd.flat_cluster_ids).find?
                (fun q => decide (q.1 = merged_id)) with
            | some q => .ok ("cluster", some q.2)
            | none => .error .indexError
          else if (right_leaf.type = "leaf" ∨ right_leaf.type = "subcluster") ∧
              (left_leaf.type = "leaf" ∨ left_leaf.type = "subcluster") then
            .ok ("subcluster", none)
          else
            .ok ("supercluster", none)
        match cls with
        | .error e => .error e
        | .ok (node_type, cluster_id) =>
          match pyGet scheme color with
          | none => .error (.colorKey color)
          | some edge =>
            let merged_coords : ℚ × ℚ := (x.q1 + (x.q2 - x.q1) / 2, y.q2)
            let p : ClusterNode :=
              { x := merged_coords.1, y := merged_coords.2, edgecolor := edge,
                type := node_type, cluster_id := cluster_id, id := merged_id }
            let p := if node_type ≠ "subcluster" then { p with fillcolor := edge } else p
            let r := applyCallbacks cd lf hf p
            .ok (pyDictInsert d merged_coords r.1, r.1, r.2.1, r.2.2)

/-- The merge loop of `BaseDendro._nodes` over
`zip(icoord, dcoord, link_colors)`; on an exception the registry mutated
so far is kept (class attribute). -/
def processMerges (cd : ClusteringData) (scheme : List (String × String))
    (mm : List ((ℕ × ℕ) × ℕ)) (lf : Option LabelF) (hf : Option HoverF) :
    List (Quad × Quad × String) → NodeDict → ℕ → ℕ →
      (Except PyErr Unit) × NodeDict × ℕ × ℕ
  | [], d, lc, hc => (.ok (), d, lc, hc)
  | (x, y, color) :: rest, d, lc, hc =>
    match processMerge cd scheme mm lf hf d x y color with
    | .error e => (.error e, d, lc, hc)
    | .ok (d', _, dl, dh) => processMerges cd scheme mm lf hf rest d' (lc + dl) (hc + dh)

/-- `BaseDendro._nodes`: recompute only when the (class-level) registry is
empty, then return `list(self.node_dict.values())`.  Result components:
the returned value (or exception), the registry state after the call, and
the number of label/hover callback invocations made by this call. -/
def nodes_method (nd : NodeDict) (inst : InstanceData)
    (lf : Option LabelF) (hf : Option HoverF) :
    (Except PyErr (List ClusterNode)) × NodeDict × ℕ × ℕ :=
  if nd.isEmpty then
    match inst.cluster_data with
    | none => (.error .missingClusterData, nd, 0, 0)
    | some cd =>
      match processLeaves cd inst.color_scheme lf hf
          (zip3 inst.leaf_positions inst.leaves inst.leaves_color_list) nd 0 0 with
      | (.error e, d, lc, hc) => (.error e, d, lc, hc)
      | (.ok _, d, lc, hc) =>
        let mm := get_merge_map cd
        match processMerges cd inst.color_scheme mm lf hf
            (zip3 inst.icoord inst.dcoord inst.link_colors) d lc hc with
        | (.error e, d2, lc2, hc2) => (.error e, d2, lc2, hc2)
        | (.ok _, d2, lc2, hc2) => (.ok (d2.map Prod.snd), d2, lc2, hc2)
  else (.ok (nd.map Prod.snd), nd, 0, 0)

/-- `BaseDendro._links`: one `ClusterLink` per geometry row, color resolved
through the color scheme (a missing key raises). -/
def links_method (inst : InstanceData) : Except PyErr (List ClusterLink) :=
  (zip3 inst.icoord inst.dcoord inst.link_colors).mapM (fun row =>
    match pyGet inst.color_scheme row.2.2 with
    | none => .error (.colorKey row.2.2)
    | some col => .ok { x := row.1, y := row.2.1, fillcolor := col })

/-- `BaseDendro._axis_labels`. -/
def axis_labels_method (inst : InstanceData) : List AxisLabel :=
  (inst.leaf_positions.zip inst.leaf_labels).map (fun p => { x := p.1, label := p.2 })

/-- `BaseDendro._generate_dendrogram`: links, axis labels, then nodes when
`compute_nodes` is set.  The `Dendrogram` is constructed without passing
`computed_nodes`, exactly as in the source (line 218), so the dataclass
default `True` is used. -/
def generate_dendrogram (nd : NodeDict) (inst : InstanceData) (compute_nodes : Bool)
    (lf : Option LabelF) (hf : Option HoverF) :
    (Except PyErr Dendrogram) × NodeDict × ℕ × ℕ :=
  match links_method inst with
  | .error e => (.error e, nd, 0, 0)
  | .ok ls =>
    let als := axis_labels_method inst
    if compute_nodes then
      match nodes_method nd inst lf hf with
      | (.error e, nd2, lc, hc) => (.error e, nd2, lc, hc)
      | (.ok ns, nd2, lc, hc) =>
        (.ok { axis_labels := als, links := ls, nodes := ns }, nd2, lc, hc)
    else (.ok { axis_labels := als, links := ls, nodes := [] }, nd, 0, 0)

/-- A SciPy dendrogram dictionary with possibly missing keys (Python
`dict`s have no schema; a field is "present" when its `Option` is `some`). -/
structure ScipyRecordOpt where
  icoord : Option (List Quad) := none
  dcoord : Option (List Quad) := none
  color_list : Option (List String) := none
  ivl : Option (List String) := none
  leaves : Option (List ℕ) := none
  leaves_color_list : Option (List String) := none
deriving DecidableEq

/-- The `required_keys` list of `_set_scipy_dendrogram`. -/
def required_keys : List String :=
  ["icoord", "dcoord", "color_list", "ivl", "leaves", "leaves_color_list"]

/-- Whether the record carries a given required key. -/
def hasKey (R : ScipyRecordOpt) (k : String) : Bool :=
  if k = "icoord" then R.icoord.isSome
  else if k = "dcoord" then R.dcoord.isSome
  else if k = "color_list" then R.color_list.isSome
  else if k = "ivl" then R.ivl.isSome
  else if k = "leaves" then R.leaves.isSome
  else if k = "leaves_color_list" then R.leaves_color_list.isSome
  else false

/-- `set(required_keys).difference(R.keys())`, listed in `required_keys`
order (the Python set iterates in an unspecified order; the claim only
concerns which names are reported). -/
def missingKeys (R : ScipyRecordOpt) : List String :=
  required_keys.filter (fun k => ¬ hasKey R k)

/-- The four coordinates of a bracket, row-major, as flattened by numpy. -/
def quadList (q : Quad) : List ℚ := [q.q0, q.q1, q.q2, q.q3]

/-- Insertion step of the ascending sort modelling `numpy.sort`. -/
def insertSorted (a : ℚ) : List ℚ → List ℚ
  | [] => [a]
  | b :: l => if a ≤ b then a :: b :: l else b :: insertSorted a l

/-- Ascending sort modelling `numpy.sort`. -/
def sortAsc (l : List ℚ) : List ℚ := l.foldr insertSorted []

/-- `np.sort(X[Y == 0.0])` over the flattened coordinate arrays: the
x-values of all bracket points lying on the baseline. -/
def leafPositionsOf (ic dc : List Quad) : List ℚ :=
  sortAsc ((((ic.map quadList).flatten).zip ((dc.map quadList).flatten)).filter
    (fun p => decide (p.2 = 0))).unzip.1

/-- `BaseDendro._set_scipy_dendrogram`: validate the six required keys (an
`AttributeError` naming every missing key is raised before anything is
stored), then store the fields and derive `leaf_positions`. -/
def set_scipy_dendrogram (inst : InstanceData) (R : ScipyRecordOpt) :
    Option (List String) × InstanceData :=
  let missing := missingKeys R
  if missing.isEmpty then
    let ic := R.icoord.getD []
    let dc := R.dcoord.getD []
    (none,
      { inst with
          icoord := ic, dcoord := dc,
          link_colors := R.color_list.getD [],
          leaf_labels := R.ivl.getD [],
          leaves := R.leaves.getD [],
          leaves_color_list := R.leaves_color_list.getD [],
          leaf_positions := leafPositionsOf ic dc })
  else (some missing, inst)

/-- Arguments of `create_dendrogram` that are only consumed when a SciPy
dendrogram has to be generated. -/
structure ScipyArgs where
  truncate_mode : String := "level"
  p : ℕ := 4
  sort_criteria : String := "distance"
  sort_descending : Bool := false
  link_color_func : Option (ℕ → String) := none
  leaf_label_func : Option (ℕ → String) := none

/-- A complete SciPy dendrogram dictionary (as returned by
`scipy.cluster.hierarchy.dendrogram`, which always carries all six keys). -/
structure ScipyRecord where
  icoord : List Quad
  dcoord : List Quad
  color_list : List String
  ivl : List String
  leaves : List ℕ
  leaves_color_list : List String

/-- View of a complete record as a keyed dictionary. -/
def recordToOpt (R : ScipyRecord) : ScipyRecordOpt :=
  { icoord := some R.icoord, dcoord := some R.dcoord,
    color_list := some R.color_list, ivl := some R.ivl,
    leaves := some R.leaves, leaves_color_list := some R.leaves_color_list }

/-- `BaseDendro._create_scipy_dendrogram`: requires clustering data,
asserts the sort criteria, and otherwise delegates to the external
`scipy.cluster.hierarchy.dendrogram`, modelled by the `oracle` argument. -/
def create_scipy_dendrogram (inst : InstanceData)
    (oracle : ClusteringData → ScipyArgs → ScipyRecord) (args : ScipyArgs) :
    Except PyErr ScipyRecord :=
  match inst.cluster_data with
  | none => .error .missingClusterData
  | some cd =>
    if args.sort_criteria = "distance" ∨ args.sort_criteria = "count" then
      .ok (oracle cd args)
    else .error .assertionError

/-- `BaseDendro.create_dendrogram`: generate and ingest SciPy geometry only
when `self.icoord.shape[0] == 0`, then assemble the dendrogram. -/
def create_dendrogram (nd : NodeDict) (inst : InstanceData)
    (oracle : ClusteringData → ScipyArgs → ScipyRecord) (args : ScipyArgs)
    (compute_nodes : Bool) (lf : Option LabelF) (hf : Option HoverF) :
    (Except PyErr Dendrogram) × NodeDict × ℕ × ℕ :=
  if inst.icoord.length = 0 then
    match create_scipy_dendrogram inst oracle args with
    | .error e => (.error e, nd, 0, 0)
    | .ok R =>
      match set_scipy_dendrogram inst (recordToOpt R) with
      | (some m, _) => (.error (.missingKeys m), nd, 0, 0)
      | (none, inst2) => generate_dendrogram nd inst2 compute_nodes lf hf
  else generate_dendrogram nd inst compute_nodes lf hf

/-- The default color scheme assigned by `BaseDendro.__init__`. -/
def defaultColorScheme : List (String × String) :=
  [("C0", "#1f77b4"), ("C1", "#ff7f0e"), ("C2", "#2ca02c"), ("C3", "#d62728"),
   ("C4", "#9467bd"), ("C5", "#8c564b"), ("C6", "#e377c2"), ("C7", "#7f7f7f"),
   ("C8", "#bcbd22"), ("C9", "#17becf")]

/-- `BaseDendro.__init__`: assigns only `self.color_scheme`; every other
attribute keeps its class-level value (empty arrays / the shared
`node_dict`, which is returned untouched). -/
def BaseDendro_init (color_scheme : Option (List (String × String)))
    (class_node_dict : NodeDict) : InstanceData × NodeDict :=
  ({ color_scheme := color_scheme.getD defaultColorScheme }, class_node_dict)

/-- The id list of the nodes registered after the leaves and the first `j`
merge rows have been processed: the leaves in display order followed by the
merged ids `N + piFun t` in geometry order (`piFun j` is the linkage row
drawn by geometry row `j`). -/
def SList (lvs : List ℕ) (N : ℕ) (piFun : ℕ → ℕ) (j : ℕ) : List ℕ :=
  lvs ++ (List.range j).map (fun t => N + piFun t)

/-- Registry invariant of one reconstruction pass: the keys are the
`pos`-coordinates of the ids in `S` (in order), the stored ids are exactly
`S`, ids below `N` are leaves, and a merge node has type `cluster` exactly
when its id is a leader. -/
def BuildInv (cd : ClusteringData) (pos : ℕ → ℚ × ℚ) (N : ℕ) (S : List ℕ)
    (d : NodeDict) : Prop :=
  d.map Prod.fst = S.map pos ∧
  d.map (fun e => e.2.id) = S ∧
  (∀ e ∈ d, e.2.id < N → e.2.type = "leaf") ∧
  (∀ e ∈ d, N ≤ e.2.id → (e.2.type = "cluster" ↔ e.2.id ∈ cd.leaders))

/-- A valid untruncated N-leaf linkage together with matching geometry.
`pos` assigns each node id its visual coordinate (leaves on the baseline,
merges at their shoulder midpoints); `piFun` maps each geometry row to the
linkage row it draws.  The conditions say: the arrays have the shapes of an
untruncated dendrogram of the linkage, the displayed leaves are exactly the
ids `0..N-1`, distinct ids occupy distinct coordinates, every bracket's
feet sit on its two children's coordinates and its shoulder midpoint on the
merged id's coordinate, children are always drawn before their parent
(scipy's emission order), linkage child pairs are pairwise distinct, every
color key is in the scheme, and the cached leaders arrays are aligned. -/
structure ValidGeometry (inst : InstanceData) (cd : ClusteringData)
    (pos : ℕ → ℚ × ℚ) (piFun : ℕ → ℕ) (N : ℕ) : Prop where
  hcd : inst.cluster_data = some cd
  hN : N = cd.linkage_matrix.length + 1
  hlp : inst.leaf_positions.length = N
  hlv : inst.leaves.length = N
  hlc : inst.leaves_color_list.length = N
  hic : inst.icoord.length = N - 1
  hdc : inst.dcoord.length = N - 1
  hcl : inst.link_colors.length = N - 1
  hperm : inst.leaves.Perm (List.range N)
  hpi_lt : ∀ j < N - 1, piFun j < N - 1
  hpi_inj : ∀ j1 < N - 1, ∀ j2 < N - 1, piFun j1 = piFun j2 → j1 = j2
  hpos_inj : ∀ i1 < 2 * N - 1, ∀ i2 < 2 * N - 1, pos i1 = pos i2 → i1 = i2
  hleafpos : ∀ t < N, pos (inst.leaves.getD t 0) = (inst.leaf_positions.getD t 0, 0)
  hrow : ∀ j < N - 1,
    ((inst.icoord.getD j ⟨0, 0, 0, 0⟩).q0, (inst.dcoord.getD j ⟨0, 0, 0, 0⟩).q0)
      = pos (cd.linkage_matrix.getD (piFun j) (0, 0, 0, 0)).1 ∧
    ((inst.icoord.getD j ⟨0, 0, 0, 0⟩).q3, (inst.dcoord.getD j ⟨0, 0, 0, 0⟩).q3)
      = pos (cd.linkage_matrix.getD (piFun j) (0, 0, 0, 0)).2.1 ∧
    ((inst.icoord.getD j ⟨0, 0, 0, 0⟩).q1 +
        ((inst.icoord.getD j ⟨0, 0, 0, 0⟩).q2 - (inst.icoord.getD j ⟨0, 0, 0, 0⟩).q1) / 2,
      (inst.dcoord.getD j ⟨0, 0, 0, 0⟩).q2) = pos (N + piFun j)
  horder : ∀ j < N - 1,
    ((cd.linkage_matrix.getD (piFun j) (0, 0, 0, 0)).1 < N ∨
      ∃ t ∈ List.range j,
        (cd.linkage_matrix.getD (piFun j) (0, 0, 0, 0)).1 = N + piFun t) ∧
    ((cd.linkage_matrix.getD (piFun j) (0, 0, 0, 0)).2.1 < N ∨
      ∃ t ∈ List.range j,
        (cd.linkage_matrix.getD (piFun j) (0, 0, 0, 0)).2.1 = N + piFun t)
  hpairs : ∀ k1 < N - 1, ∀ k2 < N - 1,
    (cd.linkage_matrix.getD k1 (0, 0, 0, 0)).1 = (cd.linkage_matrix.getD k2 (0, 0, 0, 0)).1 →
    (cd.linkage_matrix.getD k1 (0, 0, 0, 0)).2.1
      = (cd.linkage_matrix.getD k2 (0, 0, 0, 0)).2.1 →
    k1 = k2
  hleafcolors : ∀ c ∈ inst.leaves_color_list, (pyGet inst.color_scheme c).isSome = true
  hlinkcolors : ∀ c ∈ inst.link_colors, (pyGet inst.color_scheme c).isSome = true
  hlead_len : cd.leaders.length = cd.flat_cluster_ids.length

/-! ### Concrete example data

Scenario A is the spec's concrete scenario: 4 leaves, linkage rows
`(0,1)→4`, `(2,3)→5`, `(4,5)→6`, cut threshold 2, flat clusters
`{0,1} = 1` and `{2,3} = 2`, leaders `{4: 1, 5: 2}`, with the standard
scipy geometry (leaf positions 5, 15, 25, 35).  Scenario B is a 2-leaf
clustering whose cut makes each leaf its own flat cluster, so both
leaders are leaf ids.  Scenario C is scenario B with a bracket whose right
foot (99, 0) was never registered.  Scenario D is a single-leaf display
used for small memoization witnesses. -/

/-- Scenario A clustering result. -/
def cdA : ClusteringData :=
  { linkage_matrix := [(0, 1, 1, 2), (2, 3, 1, 2), (4, 5, 3, 4)],
    cluster_assignments := [1, 1, 2, 2], threshold := 2,
    leaders := [4, 5], flat_cluster_ids := [1, 2] }

/-- Scenario A instance state after geometry ingestion. -/
def instA : InstanceData :=
  { cluster_data := some cdA,
    icoord := [⟨5, 5, 15, 15⟩, ⟨25, 25, 35, 35⟩, ⟨10, 10, 30, 30⟩],
    dcoord := [⟨0, 1, 1, 0⟩, ⟨0, 1, 1, 0⟩, ⟨1, 3, 3, 1⟩],
    link_colors := ["C0", "C1", "C2"],
    leaf_labels := ["0", "1", "2", "3"],
    leaf_positions := [5, 15, 25, 35],
    leaves := [0, 1, 2, 3],
    leaves_color_list := ["C0", "C0", "C1", "C1"],
    color_scheme := defaultColorScheme }

/-- Scenario A coordinate assignment: leaves on the baseline, merges at
their shoulder midpoints. -/
def posA : ℕ → ℚ × ℚ := fun i =>
  if i = 0 then (5, 0) else if i = 1 then (15, 0) else if i = 2 then (25, 0)
  else if i = 3 then (35, 0) else if i = 4 then (10, 1) else if i = 5 then (30, 1)
  else if i = 6 then (20, 3) else (0, 0)

/-- A two-color scheme for the small scenarios. -/
def schemeB : List (String × String) := [("C0", "#abc")]

/-- Scenario B clustering result: each leaf is its own flat cluster, so
the leaders are the leaf ids 0 and 1. -/
def cdB : ClusteringData :=
  { linkage_matrix := [(0, 1, 1, 2)],
    cluster_assignments := [1, 2], threshold := 0,
    leaders := [0, 1], flat_cluster_ids := [1, 2] }

/-- Scenario B instance state. -/
def instB : InstanceData :=
  { cluster_data := some cdB,
    icoord := [⟨5, 5, 15, 15⟩],
    dcoord := [⟨0, 1, 1, 0⟩],
    link_colors := ["C0"],
    leaf_labels := ["0", "1"],
    leaf_positions := [5, 15],
    leaves := [0, 1],
    leaves_color_list := ["C0", "C0"],
    color_scheme := schemeB }

/-- Scenario C: scenario B with a bracket whose right foot coordinate
(99, 0) was never registered. -/
def instC : InstanceData := { instB with icoord := [⟨5, 5, 99, 99⟩] }

/-- The leaf node at x = 5 of scenario B. -/
def nodeB0 : ClusterNode :=
  { x := 5, y := 0, type := "leaf", id := 0, cluster_id := none,
    edgecolor := "#abc", fillcolor := "#abc", radius := 4 }

/-- The leaf node at x = 15 of scenario B. -/
def nodeB1 : ClusterNode :=
  { x := 15, y := 0, type := "leaf", id := 1, cluster_id := none,
    edgecolor := "#abc", fillcolor := "#abc", radius := 4 }

/-- The registry of scenario B after leaf seeding. -/
def dictB : NodeDict := [((5, 0), nodeB0), ((15, 0), nodeB1)]

/-- Scenario D clustering result (a single observation). -/
def cdD : ClusteringData :=
  { linkage_matrix := [], cluster_assignments := [1], threshold := 1,
    leaders := [0], flat_cluster_ids := [1] }

/-- Scenario D instance state: one leaf at x = 5, no merges. -/
def instD : InstanceData :=
  { cluster_data := some cdD,
    leaf_positions := [5],
    leaves := [0],
    leaves_color_list := ["C0"],
    color_scheme := schemeB }

/-- A constant label callback used in the memoization witnesses. -/
def lfD : Option LabelF := some (fun _ _ => "L")

/-- The single leaf node scenario D produces (labelled by `lfD`). -/
def nodeD : ClusterNode :=
  { x := 5, y := 0, type := "leaf", id := 0, cluster_id := none,
    edgecolor := "#abc", fillcolor := "#abc", radius := 4, label := "L" }

/-- The registry scenario D leaves behind. -/
def dictD : NodeDict := [((5, 0), nodeD)]

/-- A fresh instance with every attribute at its class default. -/
def instEmpty : InstanceData := {}

/-- A record missing exactly the two color-key fields (spec's testable
property 7). -/
def recMissingTwo : ScipyRecordOpt :=
  { icoord := some [], dcoord := some [], ivl := some [], leaves := some [] }

/-- The empty dendrogram produced from `instEmpty` without nodes. -/
def dgm0 : Dendrogram := { axis_labels := [], links := [], nodes := [] }

/-- An oracle standing in for `scipy.cluster.hierarchy.dendrogram`. -/
def oracleTrivial : ClusteringData → ScipyArgs → ScipyRecord :=
  fun _ _ => ⟨[], [], [], [], [], []⟩

/-- Non-default layout arguments, to be ignored once geometry is stored. -/
def argsAlt : ScipyArgs :=
  { truncate_mode := "lastp", p := 7, sort_criteria := "count",
    sort_descending := true }

/-- Decidable equality for `Except` results, to evaluate concrete runs of
the pipeline. -/
instance {e a : Type} [DecidableEq e] [DecidableEq a] : DecidableEq (Except e a) :=
  fun x y =>
    match x, y with
    | .error e1, .error e2 =>
      if h : e1 = e2 then isTrue (by rw [h]) else isFalse (by simp [h])
    | .error e1, .ok a2 => isFalse (by simp)
    | .ok a1, .error e2 => isFalse (by simp)
    | .ok a1, .ok a2 =>
      if h : a1 = a2 then isTrue (by rw [h]) else isFalse (by simp [h])

/-- Scenario B coordinate assignment. -/
def posB : ℕ → ℚ × ℚ := fun i =>
  if i = 0 then (5, 0) else if i = 1 then (15, 0) else if i = 2 then (10, 1)
  else (0, 0)

/-! ### Association-list (Python dict) lemmas -/

theorem pyGet_nil {α β : Type} [DecidableEq α] (k : α) :
    pyGet ([] : List (α × β)) k = none := rfl

theorem pyGet_cons {α β : Type} [DecidableEq α] (p : α × β) (d : List (α × β)) (k : α) :
    pyGet (p :: d) k = if p.1 = k then some p.2 else pyGet d k := by
  by_cases h : p.1 = k <;> simp [pyGet, List.find?_cons, h]

theorem pyDictInsert_fresh {α β : Type} [DecidableEq α] {d : List (α × β)} {k : α} (v : β)
    (h : ∀ p ∈ d, p.1 ≠ k) : pyDictInsert d k v = d ++ [(k, v)] := by
  unfold pyDictInsert
  rw [if_neg]
  simp only [List.any_eq_true, decide_eq_true_eq, not_exists, not_and]
  intro p hp
  exact h p hp

theorem pyDictInsert_ne_nil {α β : Type} [DecidableEq α] (d : List (α × β)) (k : α) (v : β) :
    pyDictInsert d k v ≠ [] := by
  unfold pyDictInsert
  split
  · cases d with
    | nil => simp_all
    | cons p l => simp
  · simp

theorem pyDict_foldl_eq {α β : Type} [DecidableEq α] :
    ∀ (l d : List (α × β)), ((d ++ l).map Prod.fst).Nodup →
      l.foldl (fun d p => pyDictInsert d p.1 p.2) d = d ++ l
  | [], d, _ => by simp
  | p :: l, d, h => by
    have hmap : ((d ++ p :: l).map Prod.fst) = d.map Prod.fst ++ p.1 :: l.map Prod.fst := by
      simp
    rw [hmap] at h
    have hdisj := (List.nodup_append.mp h).2.2
    have hfresh : ∀ q ∈ d, q.1 ≠ p.1 := by
      intro q hq
      exact fun hc => hdisj (List.mem_map_of_mem Prod.fst hq) (by simp [hc])
    have hstep : pyDictInsert d p.1 p.2 = d ++ [p] := by
      rw [pyDictInsert_fresh _ hfresh]
    rw [List.foldl_cons, hstep]
    have h2 : (((d ++ [p]) ++ l).map Prod.fst).Nodup := by
      have : (d ++ [p]) ++ l = d ++ p :: l := by simp
      rw [this, hmap]
      exact h
    have := pyDict_foldl_eq l (d ++ [p]) h2
    rw [this]
    simp

theorem pyDict_eq_self {α β : Type} [DecidableEq α] (l : List (α × β))
    (h : (l.map Prod.fst).Nodup) : pyDict l = l := by
  have := pyDict_foldl_eq l [] (by simpa using h)
  simpa [pyDict] using this

theorem pyGet_getElem {α β : Type} [DecidableEq α] :
    ∀ (d : List (α × β)), (d.map Prod.fst).Nodup → ∀ i (h : i < d.length),
      pyGet d (d[i].1) = some d[i].2
  | [], _, i, h => absurd h (by simp)
  | p :: d, hnd, 0, h => by simp [pyGet_cons]
  | p :: d, hnd, (i + 1), h => by
    have hi : i < d.length := by simpa using h
    rw [List.map_cons] at hnd
    have htail : (d.map Prod.fst).Nodup := (List.nodup_cons.mp hnd).2
    have hne : p.1 ≠ d[i].1 := by
      intro hc
      have hp1 : p.1 ∉ d.map Prod.fst := (List.nodup_cons.mp hnd).1
      exact hp1 (hc ▸ List.mem_map_of_mem Prod.fst (List.getElem_mem hi))
    simp only [List.getElem_cons_succ]
    rw [pyGet_cons, if_neg hne]
    exact pyGet_getElem d htail i hi

theorem pyGet_insert_self {α β : Type} [DecidableEq α] :
    ∀ (d : List (α × β)) (k : α) (v : β), pyGet (pyDictInsert d k v) k = some v
  | [], k, v => by simp [pyDictInsert, pyGet_cons]
  | p :: d, k, v => by
    by_cases hpk : p.1 = k
    · have hany : (p :: d).any (fun q => decide (q.1 = k)) = true := by
        simp [List.any_cons, hpk]
      unfold pyDictInsert
      rw [if_pos hany]
      simp only [List.map_cons, if_pos hpk]
      rw [pyGet_cons]
      simp
    · by_cases hd : d.any (fun q => decide (q.1 = k)) = true
      · have hany : (p :: d).any (fun q => decide (q.1 = k)) = true := by
          simp [List.any_cons, hd]
        unfold pyDictInsert
        rw [if_pos hany]
        simp only [List.map_cons, if_neg hpk]
        rw [pyGet_cons, if_neg hpk]
        have := pyGet_insert_self d k v
        unfold pyDictInsert at this
        rwa [if_pos hd] at this
      · have hany : ¬ ((p :: d).any (fun q => decide (q.1 = k)) = true) := by
          simp only [List.any_cons, Bool.or_eq_true, decide_eq_true_eq]
          push_neg
          exact ⟨hpk, by simpa using hd⟩
        unfold pyDictInsert
        rw [if_neg hany]
        rw [List.cons_append, pyGet_cons, if_neg hpk]
        have := pyGet_insert_self d k v
        unfold pyDictInsert at this
        rwa [if_neg hd] at this

/-- Looking up the registry by the coordinate of a registered id: when the
registry's keys are nodup, keys are `pos`-images of the id list `S`, and the
stored ids are exactly `S`, looking up `pos i` for `i ∈ S` yields a node
with id `i`. -/
theorem pyGet_mem_of_maps {pos : ℕ → ℚ × ℚ} :
    ∀ (d : NodeDict) (S : List ℕ), d.map Prod.fst = S.map pos →
      d.map (fun e => e.2.id) = S → (S.map pos).Nodup → ∀ i ∈ S,
      ∃ nd, pyGet d (pos i) = some nd ∧ nd.id = i ∧ nd ∈ d.map Prod.snd
  | [], S, hk, hi, _, i, hmem => by
    have : S = [] := by simpa using hi.symm
    subst this
    simp at hmem
  | e :: d, S, hk, hi, hnd, i, hmem => by
    match S, hk, hi, hnd, hmem with
    | s :: S, hk, hi, hnd, hmem =>
      simp only [List.map_cons, List.cons.injEq] at hk hi
      by_cases hsi : i = s
      · subst hsi
        refine ⟨e.2, ?_, hi.1, by simp⟩
        rw [pyGet_cons, if_pos (by rw [hk.1])]
      · have hmem2 : i ∈ S := by
          rcases List.mem_cons.mp hmem with h | h
          · exact absurd h hsi
          · exact h
        rw [List.map_cons] at hnd
        have hne : e.1 ≠ pos i := by
          rw [hk.1]
          intro hc
          exact (List.nodup_cons.mp hnd).1 (hc ▸ List.mem_map_of_mem pos hmem2)
        rw [pyGet_cons, if_neg hne]
        obtain ⟨nd, h1, h2, h3⟩ :=
          pyGet_mem_of_maps d S hk.2 hi.2 (List.nodup_cons.mp hnd).2 i hmem2
        exact ⟨nd, h1, h2, by simp [h3]⟩

/-! ### zip3 lemmas -/

theorem zip3_nil_of_left {α β γ : Type} (bs : List β) (cs : List γ) :
    zip3 ([] : List α) bs cs = [] := by
  cases bs <;> cases cs <;> rfl

theorem zip3_drop_cons {α β γ : Type} (as : List α) (bs : List β) (cs : List γ) (j : ℕ)
    (ha : j < as.length) (hb : j < bs.length) (hc : j < cs.length) :
    zip3 (as.drop j) (bs.drop j) (cs.drop j) =
      (as[j], bs[j], cs[j]) :: zip3 (as.drop (j + 1)) (bs.drop (j + 1)) (cs.drop (j + 1)) := by
  rw [List.drop_eq_getElem_cons ha, List.drop_eq_getElem_cons hb, List.drop_eq_getElem_cons hc]
  rfl

theorem zip3_length_of_eq {α β γ : Type} :
    ∀ (as : List α) (bs : List β) (cs : List γ), as.length = bs.length →
      bs.length = cs.length → (zip3 as bs cs).length = as.length
  | [], [], [], _, _ => rfl
  | [], b :: bs, cs, h, _ => by simp at h
  | a :: as, [], cs, h, _ => by simp at h
  | a :: as, b :: bs, [], _, h => by simp at h
  | a :: as, b :: bs, c :: cs, h1, h2 => by
    simp only [zip3, List.length_cons]
    rw [zip3_length_of_eq as bs cs (by simpa using h1) (by simpa using h2)]

theorem zip3_eq_nil_iff {α β γ : Type} (as : List α) (bs : List β) (cs : List γ) :
    zip3 as bs cs = [] ↔ as = [] ∨ bs = [] ∨ cs = [] := by
  cases as <;> cases bs <;> cases cs <;> simp [zip3]

/-! ### Callback application lemmas -/

theorem applyCallbacks_fst (cd : ClusteringData) (lf : Option LabelF) (hf : Option HoverF)
    (p : ClusterNode) :
    (applyCallbacks cd lf hf p).1.id = p.id ∧ (applyCallbacks cd lf hf p).1.type = p.type ∧
    (applyCallbacks cd lf hf p).1.x = p.x ∧ (applyCallbacks cd lf hf p).1.y = p.y ∧
    (applyCallbacks cd lf hf p).1.cluster_id = p.cluster_id := by
  simp [applyCallbacks]

theorem applyCallbacks_counts (cd : ClusteringData) (lf : Option LabelF) (hf : Option HoverF)
    (p : ClusterNode) :
    (applyCallbacks cd lf hf p).2.1 = (if lf.isSome then 1 else 0) ∧
    (applyCallbacks cd lf hf p).2.2 = (if hf.isSome then 1 else 0) := by
  simp [applyCallbacks]

/-! ### processMerge characterization -/

/-- Elimination principle for a successful merge step: exposes the child
lookups, the resolved merged id, the classification, the node coordinate
and the registry insertion performed by `BaseDendro._nodes` lines 273-306. -/
theorem processMerge_ok_elim {cd : ClusteringData} {scheme : List (String × String)}
    {mm : List ((ℕ × ℕ) × ℕ)} {lf : Option LabelF} {hf : Option HoverF}
    {d : NodeDict} {x y : Quad} {color : String} {d2 : NodeDict} {nodeJ : ClusterNode}
    {dl dh : ℕ}
    (h : processMerge cd scheme mm lf hf d x y color = .ok (d2, nodeJ, dl, dh)) :
    ∃ R L m, pyGet d (x.q3, y.q3) = some R ∧ pyGet d (x.q0, y.q0) = some L ∧
      pyGet mm (L.id, R.id) = some m ∧ nodeJ.id = m ∧
      nodeJ.x = x.q1 + (x.q2 - x.q1) / 2 ∧ nodeJ.y = y.q2 ∧
      d2 = pyDictInsert d (x.q1 + (x.q2 - x.q1) / 2, y.q2) nodeJ ∧
      dl = (if lf.isSome then 1 else 0) ∧ dh = (if hf.isSome then 1 else 0) ∧
      (m ∈ cd.leaders → nodeJ.type = "cluster" ∧
        ∃ q, (cd.leaders.zip cd.flat_cluster_ids).find? (fun q => decide (q.1 = m)) = some q ∧
          nodeJ.cluster_id = some q.2) ∧
      (m ∉ cd.leaders →
        (((R.type = "leaf" ∨ R.type = "subcluster") ∧
            (L.type = "leaf" ∨ L.type = "subcluster")) →
          nodeJ.type = "subcluster" ∧ nodeJ.cluster_id = none)) ∧
      (m ∉ cd.leaders →
        (¬ ((R.type = "leaf" ∨ R.type = "subcluster") ∧
            (L.type = "leaf" ∨ L.type = "subcluster")) →
          nodeJ.type = "supercluster" ∧ nodeJ.cluster_id = none)) := by
  unfold processMerge at h
  simp only [] at h
  split at h
  · exact absurd h (by simp)
  rename_i R hR
  split at h
  · exact absurd h (by simp)
  rename_i L hL
  split at h
  · exact absurd h (by simp)
  rename_i m hm
  split at h
  · exact absurd h (by simp)
  rename_i ty cid hcls
  split at h
  · exact absurd h (by simp)
  rename_i edge hedge
  simp only [Except.ok.injEq, Prod.mk.injEq] at h
  obtain ⟨h1, h2, h3, h4⟩ := h
  refine ⟨R, L, m, hR, hL, hm, ?_⟩
  by_cases hmem : m ∈ cd.leaders
  · rw [if_pos hmem] at hcls
    cases hq : (cd.leaders.zip cd.flat_cluster_ids).find? (fun q => decide (q.1 = m)) with
    | none => rw [hq] at hcls; exact absurd hcls (by simp)
    | some q =>
      rw [hq] at hcls
      simp only [Except.ok.injEq, Prod.mk.injEq] at hcls
      obtain ⟨hty, hcid⟩ := hcls
      subst hty hcid
      subst h2
      refine ⟨?_, ?_, ?_, h1.symm, ?_, ?_, ?_, ?_, ?_⟩ <;>
        simp [applyCallbacks, ← h3, ← h4, hmem, hq]
  · rw [if_neg hmem] at hcls
    by_cases hsub : (R.type = "leaf" ∨ R.type = "subcluster") ∧
        (L.type = "leaf" ∨ L.type = "subcluster")
    · rw [if_pos hsub] at hcls
      simp only [Except.ok.injEq, Prod.mk.injEq] at hcls
      obtain ⟨hty, hcid⟩ := hcls
      subst hty hcid
      subst h2
      refine ⟨?_, ?_, ?_, h1.symm, ?_, ?_, ?_, ?_, ?_⟩ <;>
        simp [applyCallbacks, ← h3, ← h4, hmem, hsub]
    · rw [if_neg hsub] at hcls
      simp only [Except.ok.injEq, Prod.mk.injEq] at hcls
      obtain ⟨hty, hcid⟩ := hcls
      subst hty hcid
      subst h2
      refine ⟨?_, ?_, ?_, h1.symm, ?_, ?_, ?_, ?_, ?_⟩ <;>
        simp [applyCallbacks, ← h3, ← h4, hmem, hsub]

/-- Forward evaluation of a merge step whose lookups all succeed: the step
returns successfully, registers the new node under the shoulder midpoint,
and the node's type is `cluster` exactly when the merged id is a leader. -/
theorem processMerge_run {cd : ClusteringData} {scheme : List (String × String)}
    {mm : List ((ℕ × ℕ) × ℕ)} {lf : Option LabelF} {hf : Option HoverF}
    {d : NodeDict} {x y : Quad} {color : String} {R L : ClusterNode} {m : ℕ}
    (hR : pyGet d (x.q3, y.q3) = some R) (hL : pyGet d (x.q0, y.q0) = some L)
    (hm : pyGet mm (L.id, R.id) = some m) {edge : String}
    (hedge : pyGet scheme color = some edge)
    (hcls : m ∉ cd.leaders ∨
      ∃ q, (cd.leaders.zip cd.flat_cluster_ids).find? (fun q => decide (q.1 = m)) = some q) :
    ∃ d2 nd, processMerge cd scheme mm lf hf d x y color =
        .ok (d2, nd, (if lf.isSome then 1 else 0), (if hf.isSome then 1 else 0)) ∧
      d2 = pyDictInsert d (x.q1 + (x.q2 - x.q1) / 2, y.q2) nd ∧
      nd.id = m ∧ nd.x = x.q1 + (x.q2 - x.q1) / 2 ∧ nd.y = y.q2 ∧
      (nd.type = "cluster" ↔ m ∈ cd.leaders) := by
  unfold processMerge
  simp only [hR, hL, hm, hedge]
  rcases hcls with hmem | ⟨q, hq⟩
  · by_cases hsub : (R.type = "leaf" ∨ R.type = "subcluster") ∧
        (L.type = "leaf" ∨ L.type = "subcluster")
    · rw [if_neg hmem, if_pos hsub]
      refine ⟨_, _, rfl, rfl, ?_, ?_, ?_, ?_⟩ <;> simp [applyCallbacks, hmem]
    · rw [if_neg hmem, if_neg hsub]
      refine ⟨_, _, rfl, rfl, ?_, ?_, ?_, ?_⟩ <;> simp [applyCallbacks, hmem]
  · have hq1 := List.find?_some hq
    simp only [decide_eq_true_eq] at hq1
    have hmem : m ∈ cd.leaders :=
      hq1 ▸ (List.of_mem_zip (List.mem_of_find?_eq_some hq)).1
    rw [if_pos hmem, hq]
    refine ⟨_, _, rfl, rfl, ?_, ?_, ?_, ?_⟩ <;> simp [applyCallbacks, hmem]

/-! ### Counting and persistence lemmas for the two loops -/

theorem processLeaves_counts (cd : ClusteringData) (scheme : List (String × String))
    (lf : Option LabelF) (hf : Option HoverF) :
    ∀ (rows : List (ℚ × ℕ × String)) (d : NodeDict) (lc hc : ℕ) d2 lc2 hc2,
      processLeaves cd scheme lf hf rows d lc hc = (.ok (), d2, lc2, hc2) →
      lc2 = lc + (if lf.isSome then rows.length else 0) ∧
      hc2 = hc + (if hf.isSome then rows.length else 0)
  | [], d, lc, hc, d2, lc2, hc2, h => by
    simp only [processLeaves, Prod.mk.injEq] at h
    obtain ⟨-, -, h3, h4⟩ := h
    simp [← h3, ← h4]
  | (xc, li, color) :: rest, d, lc, hc, d2, lc2, hc2, h => by
    rw [processLeaves] at h
    cases hcol : pyGet scheme color with
    | none => rw [hcol] at h; exact absurd h (by simp)
    | some col =>
      rw [hcol] at h
      have := processLeaves_counts cd scheme lf hf rest _ _ _ _ _ _ h
      obtain ⟨h1, h2⟩ := this
      constructor
      · rw [h1]; simp only [applyCallbacks, List.length_cons]
        cases lf <;> simp <;> omega
      · rw [h2]; simp only [applyCallbacks, List.length_cons]
        cases hf <;> simp <;> omega

theorem processMerges_counts (cd : ClusteringData) (scheme : List (String × String))
    (mm : List ((ℕ × ℕ) × ℕ)) (lf : Option LabelF) (hf : Option HoverF) :
    ∀ (rows : List (Quad × Quad × String)) (d : NodeDict) (lc hc : ℕ) d2 lc2 hc2,
      processMerges cd scheme mm lf hf rows d lc hc = (.ok (), d2, lc2, hc2) →
      lc2 = lc + (if lf.isSome then rows.length else 0) ∧
      hc2 = hc + (if hf.isSome then rows.length else 0)
  | [], d, lc, hc, d2, lc2, hc2, h => by
    simp only [processMerges, Prod.mk.injEq] at h
    obtain ⟨-, -, h3, h4⟩ := h
    simp [← h3, ← h4]
  | (x, y, color) :: rest, d, lc, hc, d2, lc2, hc2, h => by
    rw [processMerges] at h
    cases hstep : processMerge cd scheme mm lf hf d x y color with
    | error e => rw [hstep] at h; exact absurd h (by simp)
    | ok out =>
      obtain ⟨d', nd, dl, dh⟩ := out
      rw [hstep] at h
      obtain ⟨-, -, -, -, -, -, -, -, -, -, hdl, hdh, -⟩ := processMerge_ok_elim hstep
      have := processMerges_counts cd scheme mm lf hf rest _ _ _ _ _ _ h
      obtain ⟨h1, h2⟩ := this
      constructor
      · rw [h1, hdl]; simp only [List.length_cons]
        cases lf <;> simp <;> omega
      · rw [h2, hdh]; simp only [List.length_cons]
        cases hf <;> simp <;> omega

theorem processLeaves_sticky (cd : ClusteringData) (scheme : List (String × String))
    (lf : Option LabelF) (hf : Option HoverF) :
    ∀ (rows : List (ℚ × ℕ × String)) (d : NodeDict) (lc hc : ℕ) res d2 lc2 hc2,
      processLeaves cd scheme lf hf rows d lc hc = (res, d2, lc2, hc2) →
      d ≠ [] → d2 ≠ []
  | [], d, lc, hc, res, d2, lc2, hc2, h, hd => by
    simp only [processLeaves, Prod.mk.injEq] at h
    exact h.2.1 ▸ hd
  | (xc, li, color) :: rest, d, lc, hc, res, d2, lc2, hc2, h, hd => by
    rw [processLeaves] at h
    cases hcol : pyGet scheme color with
    | none =>
      rw [hcol] at h
      simp only [Prod.mk.injEq] at h
      exact h.2.1 ▸ hd
    | some col =>
      rw [hcol] at h
      exact processLeaves_sticky cd scheme lf hf rest _ _ _ _ _ _ _ h
        (pyDictInsert_ne_nil _ _ _)

theorem processMerges_sticky (cd : ClusteringData) (scheme : List (String × String))
    (mm : List ((ℕ × ℕ) × ℕ)) (lf : Option LabelF) (hf : Option HoverF) :
    ∀ (rows : List (Quad × Quad × String)) (d : NodeDict) (lc hc : ℕ) res d2 lc2 hc2,
      processMerges cd scheme mm lf hf rows d lc hc = (res, d2, lc2, hc2) →
      d ≠ [] → d2 ≠ []
  | [], d, lc, hc, res, d2, lc2, hc2, h, hd => by
    simp only [processMerges, Prod.mk.injEq] at h
    exact h.2.1 ▸ hd
  | (x, y, color) :: rest, d, lc, hc, res, d2, lc2, hc2, h, hd => by
    rw [processMerges] at h
    cases hstep : processMerge cd scheme mm lf hf d x y color with
    | error e =>
      rw [hstep] at h
      simp only [Prod.mk.injEq] at h
      exact h.2.1 ▸ hd
    | ok out =>
      obtain ⟨d', nd, dl, dh⟩ := out
      rw [hstep] at h
      obtain ⟨-, -, -, -, -, -, -, -, -, hd', -⟩ := processMerge_ok_elim hstep
      exact processMerges_sticky cd scheme mm lf hf rest _ _ _ _ _ _ _ h
        (hd' ▸ pyDictInsert_ne_nil _ _ _)

theorem processLeaves_ok_nonempty (cd : ClusteringData) (scheme : List (String × String))
    (lf : Option LabelF) (hf : Option HoverF) (rows : List (ℚ × ℕ × String))
    (d : NodeDict) (lc hc : ℕ) (d2 : NodeDict) (lc2 hc2 : ℕ)
    (h : processLeaves cd scheme lf hf rows d lc hc = (.ok (), d2, lc2, hc2))
    (hr : rows ≠ []) : d2 ≠ [] := by
  cases rows with
  | nil => exact absurd rfl hr
  | cons r rest =>
    obtain ⟨xc, li, color⟩ := r
    rw [processLeaves] at h
    cases hcol : pyGet scheme color with
    | none => rw [hcol] at h; exact absurd h (by simp)
    | some col =>
      rw [hcol] at h
      exact processLeaves_sticky cd scheme lf hf rest _ _ _ _ _ _ _ h
        (pyDictInsert_ne_nil _ _ _)

theorem processMerges_ok_empty (cd : ClusteringData) (scheme : List (String × String))
    (mm : List ((ℕ × ℕ) × ℕ)) (lf : Option LabelF) (hf : Option HoverF)
    (rows : List (Quad × Quad × String)) (lc hc : ℕ) (d2 : NodeDict) (lc2 hc2 : ℕ)
    (h : processMerges cd scheme mm lf hf rows [] lc hc = (.ok (), d2, lc2, hc2)) :
    rows = [] ∧ d2 = [] ∧ lc2 = lc ∧ hc2 = hc := by
  cases rows with
  | nil =>
    simp only [processMerges, Prod.mk.injEq] at h
    exact ⟨rfl, h.2.1.symm, h.2.2.1.symm, h.2.2.2.symm⟩
  | cons r rest =>
    obtain ⟨x, y, color⟩ := r
    rw [processMerges] at h
    have hstep : processMerge cd scheme mm lf hf [] x y color =
        .error (.coordKey (x.q3, y.q3)) := by
      unfold processMerge
      simp [pyGet]
    rw [hstep] at h
    exact absurd h (by simp)

/-- A successful `_nodes` call always returns `list(self.node_dict.values())`
of the registry it leaves behind. -/
theorem nodes_method_ok_shape {nd : NodeDict} {inst : InstanceData}
    {lf : Option LabelF} {hf : Option HoverF} {ns : List ClusterNode}
    {d2 : NodeDict} {lc hc : ℕ}
    (h : nodes_method nd inst lf hf = (.ok ns, d2, lc, hc)) : ns = d2.map Prod.snd := by
  unfold nodes_method at h
  split at h
  · split at h
    · exact absurd h (by simp)
    · split at h
      · exact absurd h (by simp)
      · simp only [] at h
        split at h
        · exact absurd h (by simp)
        · simp only [Prod.mk.injEq, Except.ok.injEq] at h
          exact h.2.1 ▸ h.1.symm
  · simp only [Prod.mk.injEq, Except.ok.injEq] at h
    exact h.2.1 ▸ h.1.symm

/-! ### Facts derived from ValidGeometry -/

section Invariant

variable {inst : InstanceData} {cd : ClusteringData} {pos : ℕ → ℚ × ℚ}
variable {piFun : ℕ → ℕ} {N : ℕ}

theorem ValidGeometry.leaves_nodup (V : ValidGeometry inst cd pos piFun N) :
    inst.leaves.Nodup :=
  (V.hperm.nodup_iff).mpr (List.nodup_range _)

theorem ValidGeometry.leaves_mem_lt (V : ValidGeometry inst cd pos piFun N) :
    ∀ a ∈ inst.leaves, a < N := fun a ha =>
  List.mem_range.mp (V.hperm.mem_iff.mp ha)

theorem ValidGeometry.N_pos (V : ValidGeometry inst cd pos piFun N) : 1 ≤ N := by
  rw [V.hN]; omega

theorem SList_nodup (V : ValidGeometry inst cd pos piFun N) {j : ℕ} (hj : j ≤ N - 1) :
    (SList inst.leaves N piFun j).Nodup := by
  rw [SList, List.nodup_append]
  refine ⟨V.leaves_nodup, ?_, ?_⟩
  · refine List.Nodup.map_on ?_ (List.nodup_range _)
    intro t1 ht1 t2 ht2 h
    have ht1' : t1 < N - 1 := lt_of_lt_of_le (List.mem_range.mp ht1) hj
    have ht2' : t2 < N - 1 := lt_of_lt_of_le (List.mem_range.mp ht2) hj
    exact V.hpi_inj t1 ht1' t2 ht2' (by omega)
  · intro a ha hb
    have h1 : a < N := V.leaves_mem_lt a ha
    obtain ⟨t, -, ht⟩ := List.mem_map.mp hb
    omega

theorem SList_lt (V : ValidGeometry inst cd pos piFun N) {j : ℕ} (hj : j ≤ N - 1) :
    ∀ i ∈ SList inst.leaves N piFun j, i < 2 * N - 1 := by
  intro i hi
  rw [SList, List.mem_append] at hi
  rcases hi with h | h
  · have := V.leaves_mem_lt i h
    have := V.N_pos
    omega
  · obtain ⟨t, ht, hti⟩ := List.mem_map.mp h
    have ht' : t < N - 1 := lt_of_lt_of_le (List.mem_range.mp ht) hj
    have := V.hpi_lt t ht'
    omega

theorem SList_map_pos_nodup (V : ValidGeometry inst cd pos piFun N) {j : ℕ}
    (hj : j ≤ N - 1) : ((SList inst.leaves N piFun j).map pos).Nodup := by
  refine List.Nodup.map_on ?_ (SList_nodup V hj)
  intro i1 h1 i2 h2 h
  exact V.hpos_inj i1 (SList_lt V hj i1 h1) i2 (SList_lt V hj i2 h2) h

theorem SList_succ (lvs : List ℕ) (N : ℕ) (piFun : ℕ → ℕ) (j : ℕ) :
    SList lvs N piFun (j + 1) = SList lvs N piFun j ++ [N + piFun j] := by
  rw [SList, SList, List.range_succ]
  simp

end Invariant

/-- The merge map sends the (ordered) child pair of linkage row `k` to the
merged id `N + k`, provided the linkage's child pairs are pairwise
distinct. -/
theorem get_merge_map_at (cd : ClusteringData)
    (hpairs : ∀ k1 < cd.linkage_matrix.length, ∀ k2 < cd.linkage_matrix.length,
      (cd.linkage_matrix.getD k1 (0, 0, 0, 0)).1
          = (cd.linkage_matrix.getD k2 (0, 0, 0, 0)).1 →
      (cd.linkage_matrix.getD k1 (0, 0, 0, 0)).2.1
          = (cd.linkage_matrix.getD k2 (0, 0, 0, 0)).2.1 →
      k1 = k2)
    (k : ℕ) (hk : k < cd.linkage_matrix.length) :
    pyGet (get_merge_map cd)
        ((cd.linkage_matrix.getD k (0, 0, 0, 0)).1,
          (cd.linkage_matrix.getD k (0, 0, 0, 0)).2.1)
      = some (cd.linkage_matrix.length + 1 + k) := by
  have hcompnd : (cd.linkage_matrix.map (fun r => (r.1, r.2.1))).Nodup := by
    rw [List.nodup_iff_injective_get]
    intro i1 i2 hg
    have hi1 : (i1 : ℕ) < cd.linkage_matrix.length := by
      have := i1.isLt; simpa using this
    have hi2 : (i2 : ℕ) < cd.linkage_matrix.length := by
      have := i2.isLt; simpa using this
    rw [List.get_eq_getElem, List.get_eq_getElem] at hg
    simp only [List.getElem_map, Prod.mk.injEq] at hg
    have := hpairs i1 hi1 i2 hi2
      (by rw [List.getD_eq_getElem _ _ hi1, List.getD_eq_getElem _ _ hi2]; exact hg.1)
      (by rw [List.getD_eq_getElem _ _ hi1, List.getD_eq_getElem _ _ hi2]; exact hg.2)
    exact Fin.ext this
  have hlen1 : (cd.linkage_matrix.map (fun r => (r.1, r.2.1))).length
      = cd.linkage_matrix.length := by simp
  have hlen2 : ((List.range cd.linkage_matrix.length).map
      (fun k => cd.linkage_matrix.length + 1 + k)).length = cd.linkage_matrix.length := by
    simp
  have hkeys : (((cd.linkage_matrix.map (fun r => (r.1, r.2.1))).zip
        ((List.range cd.linkage_matrix.length).map
          (fun k => cd.linkage_matrix.length + 1 + k))).map Prod.fst)
      = cd.linkage_matrix.map (fun r => (r.1, r.2.1)) :=
    List.map_fst_zip _ _ (by rw [hlen1, hlen2])
  have hznd : (((cd.linkage_matrix.map (fun r => (r.1, r.2.1))).zip
      ((List.range cd.linkage_matrix.length).map
        (fun k => cd.linkage_matrix.length + 1 + k))).map Prod.fst).Nodup := by
    rw [hkeys]; exact hcompnd
  have heq : get_merge_map cd = (cd.linkage_matrix.map (fun r => (r.1, r.2.1))).zip
      ((List.range cd.linkage_matrix.length).map
        (fun k => cd.linkage_matrix.length + 1 + k)) := by
    unfold get_merge_map
    exact pyDict_eq_self _ hznd
  have hzlen : ((cd.linkage_matrix.map (fun r => (r.1, r.2.1))).zip
      ((List.range cd.linkage_matrix.length).map
        (fun k => cd.linkage_matrix.length + 1 + k))).length = cd.linkage_matrix.length := by
    rw [List.length_zip, hlen1, hlen2]
    omega
  have hkzl : k < ((cd.linkage_matrix.map (fun r => (r.1, r.2.1))).zip
      ((List.range cd.linkage_matrix.length).map
        (fun k => cd.linkage_matrix.length + 1 + k))).length := by rw [hzlen]; exact hk
  have := pyGet_getElem _ hznd k hkzl
  rw [heq]
  have hent : ((cd.linkage_matrix.map (fun r => (r.1, r.2.1))).zip
      ((List.range cd.linkage_matrix.length).map
        (fun k => cd.linkage_matrix.length + 1 + k)))[k] =
      ((((cd.linkage_matrix.getD k (0, 0, 0, 0)).1,
        (cd.linkage_matrix.getD k (0, 0, 0, 0)).2.1)),
        cd.linkage_matrix.length + 1 + k) := by
    rw [List.getElem_zip]
    rw [List.getD_eq_getElem _ _ hk]
    simp
  rw [hent] at this
  exact this

/-- When the cached leaders and flat-cluster-id arrays are aligned, the
boolean-mask lookup `flat_cluster_ids[leaders == merged_id][0]` succeeds
for every leader. -/
theorem leaders_find_isSome (cd : ClusteringData)
    (hlen : cd.leaders.length = cd.flat_cluster_ids.length) (m : ℕ)
    (hm : m ∈ cd.leaders) :
    ∃ q, (cd.leaders.zip cd.flat_cluster_ids).find? (fun q => decide (q.1 = m)) = some q := by
  obtain ⟨i, hi, him⟩ := List.mem_iff_getElem.mp hm
  have hiz : i < (cd.leaders.zip cd.flat_cluster_ids).length := by
    rw [List.length_zip]
    omega
  have hzmem : (cd.leaders.zip cd.flat_cluster_ids)[i] ∈
      cd.leaders.zip cd.flat_cluster_ids := List.getElem_mem hiz
  have hsome : ((cd.leaders.zip cd.flat_cluster_ids).find?
      (fun q => decide (q.1 = m))).isSome := by
    rw [List.find?_isSome]
    refine ⟨(cd.leaders.zip cd.flat_cluster_ids)[i], hzmem, ?_⟩
    rw [List.getElem_zip]
    simp [him]
  exact Option.isSome_iff_exists.mp hsome

/-! ### The leaf-seeding stage -/

theorem take_succ_concat {α : Type} (l : List α) (t : ℕ) (ht : t < l.length) :
    l.take (t + 1) = l.take t ++ [l[t]] := by
  rw [List.take_succ, List.getElem?_eq_getElem ht]
  rfl

theorem map_pos_take_fresh {l : List ℕ} {pos : ℕ → ℚ × ℚ}
    (hnd : (l.map pos).Nodup) {t : ℕ} (ht : t < l.length) :
    pos l[t] ∉ (l.take t).map pos := by
  intro hmem
  obtain ⟨a, ha, hpa⟩ := List.mem_map.mp hmem
  obtain ⟨s, hs, hsa⟩ := List.mem_iff_getElem.mp ha
  have hslen : s < l.length := by
    have := hs
    rw [List.length_take] at this
    omega
  have hst : s < t := by
    have := hs
    rw [List.length_take] at this
    omega
  rw [List.getElem_take] at hsa
  have hpp : pos l[s] = pos l[t] := by rw [hsa, hpa]
  have hinj := List.nodup_iff_injective_get.mp hnd
  have hs2 : s < (l.map pos).length := by simpa using hslen
  have ht2 : t < (l.map pos).length := by simpa using ht
  have := @hinj ⟨s, hs2⟩ ⟨t, ht2⟩ (by
    rw [List.get_eq_getElem, List.get_eq_getElem]
    simp only [List.getElem_map]
    exact hpp)
  have : s = t := congrArg Fin.val this
  omega

theorem leaves_loop {inst : InstanceData} {cd : ClusteringData} {pos : ℕ → ℚ × ℚ}
    {piFun : ℕ → ℕ} {N : ℕ} (V : ValidGeometry inst cd pos piFun N)
    (lf : Option LabelF) (hf : Option HoverF) :
    ∀ (m t : ℕ), t + m = N → ∀ (d : NodeDict) (lc hc : ℕ),
      d.map Prod.fst = (inst.leaves.take t).map pos →
      d.map (fun e => e.2.id) = inst.leaves.take t →
      (∀ e ∈ d, e.2.type = "leaf") →
      ∃ d2, processLeaves cd inst.color_scheme lf hf
          (zip3 (inst.leaf_positions.drop t) (inst.leaves.drop t)
            (inst.leaves_color_list.drop t)) d lc hc
        = (.ok (), d2, lc + (if lf.isSome then m else 0),
            hc + (if hf.isSome then m else 0)) ∧
        d2.map Prod.fst = inst.leaves.map pos ∧
        d2.map (fun e => e.2.id) = inst.leaves ∧
        (∀ e ∈ d2, e.2.type = "leaf")
  | 0, t, htm, d, lc, hc, hk, hi, hty => by
    have ht : t = N := by omega
    subst ht
    have hlp := V.hlp
    have hlv := V.hlv
    have h1 : inst.leaf_positions.drop t = [] := by
      rw [List.drop_eq_nil_iff]
      omega
    rw [h1, zip3_nil_of_left]
    have htake : inst.leaves.take t = inst.leaves :=
      List.take_of_length_le (by omega)
    rw [htake] at hk hi
    exact ⟨d, by simp [processLeaves], hk, hi, hty⟩
  | (m + 1), t, htm, d, lc, hc, hk, hi, hty => by
    have htN : t < N := by omega
    have ht1 : t < inst.leaf_positions.length := by rw [V.hlp]; exact htN
    have ht2 : t < inst.leaves.length := by rw [V.hlv]; exact htN
    have ht3 : t < inst.leaves_color_list.length := by rw [V.hlc]; exact htN
    rw [zip3_drop_cons _ _ _ t ht1 ht2 ht3, processLeaves]
    have hcolmem : inst.leaves_color_list[t] ∈ inst.leaves_color_list :=
      List.getElem_mem ht3
    obtain ⟨col, hcol⟩ :=
      Option.isSome_iff_exists.mp (V.hleafcolors _ hcolmem)
    rw [hcol]
    have hkey : ((inst.leaf_positions[t] : ℚ), (0 : ℚ)) = pos inst.leaves[t] := by
      have := V.hleafpos t htN
      rw [List.getD_eq_getElem _ _ ht2, List.getD_eq_getElem _ _ ht1] at this
      exact this.symm
    have hlvsnd : (inst.leaves.map pos).Nodup := by
      have := SList_map_pos_nodup V (j := 0) (by omega)
      simpa [SList] using this
    have hfresh : ∀ p ∈ d, p.1 ≠ (inst.leaf_positions[t], (0 : ℚ)) := by
      intro p hp hc2
      have hpk : p.1 ∈ (inst.leaves.take t).map pos := by
        rw [← hk]
        exact List.mem_map_of_mem Prod.fst hp
      rw [hc2, hkey] at hpk
      exact map_pos_take_fresh hlvsnd ht2 hpk
    have hins := pyDictInsert_fresh (d := d) (k := (inst.leaf_positions[t], (0 : ℚ)))
      ((applyCallbacks cd lf hf
        { x := inst.leaf_positions[t], y := 0, edgecolor := col, fillcolor := col,
          radius := 4, type := "leaf", cluster_id := none, id := inst.leaves[t] }).1) hfresh
    have htake1 : inst.leaves.take (t + 1) = inst.leaves.take t ++ [inst.leaves[t]] :=
      take_succ_concat _ t ht2
    obtain ⟨d2, hrun, hk2, hi2, hty2⟩ := leaves_loop V lf hf m (t + 1) (by omega)
      (pyDictInsert d (inst.leaf_positions[t], (0 : ℚ))
        ((applyCallbacks cd lf hf
          { x := inst.leaf_positions[t], y := 0, edgecolor := col, fillcolor := col,
            radius := 4, type := "leaf", cluster_id := none, id := inst.leaves[t] }).1))
      (lc + (if lf.isSome then 1 else 0)) (hc + (if hf.isSome then 1 else 0))
      (by
        rw [hins, List.map_append, hk, htake1, List.map_append]
        simp [hkey])
      (by
        rw [hins, List.map_append, hi, htake1]
        simp [applyCallbacks])
      (by
        intro e he
        rw [hins] at he
        rcases List.mem_append.mp he with h | h
        · exact hty e h
        · have : e = ((inst.leaf_positions[t], (0 : ℚ)),
              (applyCallbacks cd lf hf
                { x := inst.leaf_positions[t], y := 0, edgecolor := col, fillcolor := col,
                  radius := 4, type := "leaf", cluster_id := none,
                  id := inst.leaves[t] }).1) := by simpa using h
          rw [this]
          simp [applyCallbacks])
    refine ⟨d2, ?_, hk2, hi2, hty2⟩
    have harith1 : lc + (if lf.isSome then 1 else 0) + (if lf.isSome then m else 0)
        = lc + (if lf.isSome then m + 1 else 0) := by
      cases lf <;> simp <;> omega
    have harith2 : hc + (if hf.isSome then 1 else 0) + (if hf.isSome then m else 0)
        = hc + (if hf.isSome then m + 1 else 0) := by
      cases hf <;> simp <;> omega
    rw [harith1, harith2] at hrun
    exact hrun

/-! ### The merge stage -/

theorem merges_loop {inst : InstanceData} {cd : ClusteringData} {pos : ℕ → ℚ × ℚ}
    {piFun : ℕ → ℕ} {N : ℕ} (V : ValidGeometry inst cd pos piFun N)
    (lf : Option LabelF) (hf : Option HoverF) :
    ∀ (m j : ℕ), j + m = N - 1 → ∀ (d : NodeDict) (lc hc : ℕ),
      BuildInv cd pos N (SList inst.leaves N piFun j) d →
      ∃ d2, processMerges cd inst.color_scheme (get_merge_map cd) lf hf
          (zip3 (inst.icoord.drop j) (inst.dcoord.drop j) (inst.link_colors.drop j))
          d lc hc
        = (.ok (), d2, lc + (if lf.isSome then m else 0),
            hc + (if hf.isSome then m else 0)) ∧
        BuildInv cd pos N (SList inst.leaves N piFun (N - 1)) d2
  | 0, j, hjm, d, lc, hc, hinv => by
    have hj : j = N - 1 := by omega
    subst hj
    have hic := V.hic
    have h1 : inst.icoord.drop (N - 1) = [] := by
      rw [List.drop_eq_nil_iff]
      omega
    rw [h1, zip3_nil_of_left]
    exact ⟨d, by simp [processMerges], hinv⟩
  | (m + 1), j, hjm, d, lc, hc, hinv => by
    have hjlt : j < N - 1 := by omega
    have hj1 : j < inst.icoord.length := by rw [V.hic]; exact hjlt
    have hj2 : j < inst.dcoord.length := by rw [V.hdc]; exact hjlt
    have hj3 : j < inst.link_colors.length := by rw [V.hcl]; exact hjlt
    have hZlen : cd.linkage_matrix.length = N - 1 := by
      have := V.hN
      omega
    have hNpos := V.N_pos
    have hpfj : piFun j < N - 1 := V.hpi_lt j hjlt
    have hZb : piFun j < cd.linkage_matrix.length := by omega
    obtain ⟨hq0, hq3, hmid⟩ := V.hrow j hjlt
    rw [List.getD_eq_getElem _ _ hj1, List.getD_eq_getElem _ _ hj2] at hq0 hq3 hmid
    obtain ⟨horda, hordb⟩ := V.horder j hjlt
    have hinv' := hinv
    unfold BuildInv at hinv'
    obtain ⟨hk, hi, h3, h4⟩ := hinv'
    have hndk : ((SList inst.leaves N piFun j).map pos).Nodup :=
      SList_map_pos_nodup V (le_of_lt hjlt)
    have hmemS : ∀ i : ℕ,
        (i < N ∨ ∃ t ∈ List.range j, i = N + piFun t) →
        i ∈ SList inst.leaves N piFun j := by
      intro i hio
      rw [SList, List.mem_append]
      rcases hio with h | ⟨t, ht, hti⟩
      · exact Or.inl (V.hperm.mem_iff.mpr (List.mem_range.mpr h))
      · exact Or.inr (List.mem_map.mpr ⟨t, ht, hti.symm⟩)
    obtain ⟨R, hgR, hRid, hRmem⟩ := pyGet_mem_of_maps d _ hk hi hndk
      ((cd.linkage_matrix.getD (piFun j) (0, 0, 0, 0)).2.1) (hmemS _ hordb)
    obtain ⟨L, hgL, hLid, hLmem⟩ := pyGet_mem_of_maps d _ hk hi hndk
      ((cd.linkage_matrix.getD (piFun j) (0, 0, 0, 0)).1) (hmemS _ horda)
    have hgR' : pyGet d (inst.icoord[j].q3, inst.dcoord[j].q3) = some R := by
      rw [hq3]; exact hgR
    have hgL' : pyGet d (inst.icoord[j].q0, inst.dcoord[j].q0) = some L := by
      rw [hq0]; exact hgL
    have hpairs' : ∀ k1 < cd.linkage_matrix.length, ∀ k2 < cd.linkage_matrix.length,
        (cd.linkage_matrix.getD k1 (0, 0, 0, 0)).1
            = (cd.linkage_matrix.getD k2 (0, 0, 0, 0)).1 →
        (cd.linkage_matrix.getD k1 (0, 0, 0, 0)).2.1
            = (cd.linkage_matrix.getD k2 (0, 0, 0, 0)).2.1 →
        k1 = k2 := by
      intro k1 hk1 k2 hk2
      exact V.hpairs k1 (by omega) k2 (by omega)
    have hmm0 := get_merge_map_at cd hpairs' (piFun j) hZb
    have hmmval : cd.linkage_matrix.length + 1 + piFun j = N + piFun j := by
      rw [hZlen, Nat.sub_add_cancel hNpos]
    rw [hmmval] at hmm0
    have hmm : pyGet (get_merge_map cd) (L.id, R.id) = some (N + piFun j) := by
      rw [hLid, hRid]
      exact hmm0
    have hcolmem : inst.link_colors[j] ∈ inst.link_colors := List.getElem_mem hj3
    obtain ⟨edge, hedge⟩ := Option.isSome_iff_exists.mp (V.hlinkcolors _ hcolmem)
    have hclsgrd : (N + piFun j) ∉ cd.leaders ∨
        ∃ q, (cd.leaders.zip cd.flat_cluster_ids).find?
          (fun q => decide (q.1 = N + piFun j)) = some q := by
      by_cases hm : (N + piFun j) ∈ cd.leaders
      · exact Or.inr (leaders_find_isSome cd V.hlead_len _ hm)
      · exact Or.inl hm
    obtain ⟨d', nd, hstep, hd', hndid, hndx, hndy, hndtype⟩ :=
      @processMerge_run cd inst.color_scheme (get_merge_map cd) lf hf d
        inst.icoord[j] inst.dcoord[j] inst.link_colors[j] R L (N + piFun j)
        hgR' hgL' hmm edge hedge hclsgrd
    have hfresh : ∀ p ∈ d, p.1 ≠ (inst.icoord[j].q1 +
        (inst.icoord[j].q2 - inst.icoord[j].q1) / 2, inst.dcoord[j].q2) := by
      intro p hp hc2
      have hpk : p.1 ∈ (SList inst.leaves N piFun j).map pos := by
        rw [← hk]
        exact List.mem_map_of_mem Prod.fst hp
      rw [hc2, hmid] at hpk
      have hnd2 : ((SList inst.leaves N piFun (j + 1)).map pos).Nodup :=
        SList_map_pos_nodup V (by omega)
      rw [SList_succ, List.map_append, List.nodup_append] at hnd2
      exact hnd2.2.2 hpk (by simp)
    have hins : d' = d ++ [((inst.icoord[j].q1 +
        (inst.icoord[j].q2 - inst.icoord[j].q1) / 2, inst.dcoord[j].q2), nd)] := by
      rw [hd']
      exact pyDictInsert_fresh nd hfresh
    have hinv2 : BuildInv cd pos N (SList inst.leaves N piFun (j + 1)) d' := by
      unfold BuildInv
      refine ⟨?_, ?_, ?_, ?_⟩
      · rw [hins, List.map_append, hk, SList_succ, List.map_append]
        simp [hmid]
      · rw [hins, List.map_append, hi, SList_succ]
        simp [hndid]
      · intro e he
        rw [hins] at he
        rcases List.mem_append.mp he with h | h
        · exact h3 e h
        · have he2 : e.2 = nd := by
            have : e = ((inst.icoord[j].q1 +
                (inst.icoord[j].q2 - inst.icoord[j].q1) / 2, inst.dcoord[j].q2), nd) := by
              simpa using h
            rw [this]
          rw [he2, hndid]
          intro hlt
          omega
      · intro e he
        rw [hins] at he
        rcases List.mem_append.mp he with h | h
        · exact h4 e h
        · have he2 : e.2 = nd := by
            have : e = ((inst.icoord[j].q1 +
                (inst.icoord[j].q2 - inst.icoord[j].q1) / 2, inst.dcoord[j].q2), nd) := by
              simpa using h
            rw [this]
          rw [he2, hndid]
          intro
          exact hndtype
    obtain ⟨d2, hrun, hinv3⟩ := merges_loop V lf hf m (j + 1) (by omega) d'
      (lc + (if lf.isSome then 1 else 0)) (hc + (if hf.isSome then 1 else 0)) hinv2
    refine ⟨d2, ?_, hinv3⟩
    rw [zip3_drop_cons _ _ _ j hj1 hj2 hj3, processMerges, hstep]
    have harith1 : lc + (if lf.isSome then 1 else 0) + (if lf.isSome then m else 0)
        = lc + (if lf.isSome then m + 1 else 0) := by
      cases lf <;> simp <;> omega
    have harith2 : hc + (if hf.isSome then 1 else 0) + (if hf.isSome then m else 0)
        = hc + (if hf.isSome then m + 1 else 0) := by
      cases hf <;> simp <;> omega
    rw [harith1, harith2] at hrun
    exact hrun

/-- Master lemma: on a valid untruncated linkage with matching geometry,
`_nodes` succeeds, performs `2N-1` callback invocations per provided
callback, and leaves a registry satisfying the build invariant for the
full id list. -/
theorem nodes_method_valid {inst : InstanceData} {cd : ClusteringData}
    {pos : ℕ → ℚ × ℚ} {piFun : ℕ → ℕ} {N : ℕ}
    (V : ValidGeometry inst cd pos piFun N) (lf : Option LabelF) (hf : Option HoverF) :
    ∃ d2, nodes_method [] inst lf hf
        = (.ok (d2.map Prod.snd), d2,
            (if lf.isSome then 2 * N - 1 else 0), (if hf.isSome then 2 * N - 1 else 0)) ∧
      BuildInv cd pos N (SList inst.leaves N piFun (N - 1)) d2 := by
  have hNpos := V.N_pos
  obtain ⟨dL, hrunL, hkL, hiL, htyL⟩ := leaves_loop V lf hf N 0 (by omega) [] 0 0
    (by simp) (by simp) (by simp)
  rw [List.drop_zero, List.drop_zero, List.drop_zero] at hrunL
  simp only [Nat.zero_add] at hrunL
  have hinv0 : BuildInv cd pos N (SList inst.leaves N piFun 0) dL := by
    unfold BuildInv
    refine ⟨by simpa [SList] using hkL, by simpa [SList] using hiL,
      fun e he _ => htyL e he, ?_⟩
    intro e he hNle
    have hmem : e.2.id ∈ inst.leaves := by
      rw [← hiL]
      exact List.mem_map_of_mem _ he
    exact absurd (V.leaves_mem_lt _ hmem) (Nat.not_lt.mpr hNle)
  obtain ⟨d2, hrunM, hinv⟩ := merges_loop V lf hf (N - 1) 0 (by omega) dL
    (if lf.isSome then N else 0) (if hf.isSome then N else 0) hinv0
  rw [List.drop_zero, List.drop_zero, List.drop_zero] at hrunM
  have ha1 : (if lf.isSome then N else 0) + (if lf.isSome then N - 1 else 0)
      = (if lf.isSome then 2 * N - 1 else 0) := by
    cases lf <;> simp <;> omega
  have ha2 : (if hf.isSome then N else 0) + (if hf.isSome then N - 1 else 0)
      = (if hf.isSome then 2 * N - 1 else 0) := by
    cases hf <;> simp <;> omega
  rw [ha1, ha2] at hrunM
  refine ⟨d2, ?_, hinv⟩
  simp only [nodes_method, List.isEmpty_nil, if_true, V.hcd, hrunL, hrunM]

theorem nodup_shift_aux (N : ℕ) :
    ((List.range (N - 1)).map (fun k => N + k)).Nodup := by
  refine List.Nodup.map_on ?_ (List.nodup_range _)
  intro t1 _ t2 _ h
  omega

theorem perm_shift_aux {inst : InstanceData} {cd : ClusteringData} {pos : ℕ → ℚ × ℚ}
    {piFun : ℕ → ℕ} {N : ℕ} (V : ValidGeometry inst cd pos piFun N) :
    ((List.range (N - 1)).map (fun t => N + piFun t)).Perm
      ((List.range (N - 1)).map (fun k => N + k)) := by
  have hA : ((List.range (N - 1)).map piFun).Nodup := by
    refine List.Nodup.map_on ?_ (List.nodup_range _)
    intro t1 h1 t2 h2 h
    exact V.hpi_inj t1 (List.mem_range.mp h1) t2 (List.mem_range.mp h2) h
  have hsub : (List.range (N - 1)).map piFun ⊆ List.range (N - 1) := by
    intro x hx
    obtain ⟨t, ht, rfl⟩ := List.mem_map.mp hx
    exact List.mem_range.mpr (V.hpi_lt t (List.mem_range.mp ht))
  have hsp := List.subperm_of_subset hA hsub
  have hperm : ((List.range (N - 1)).map piFun).Perm (List.range (N - 1)) := by
    refine hsp.perm_of_length_le ?_
    simp
  have hmm : (List.range (N - 1)).map (fun t => N + piFun t)
      = ((List.range (N - 1)).map piFun).map (fun k => N + k) := by
    rw [List.map_map]
    rfl
  rw [hmm]
  exact hperm.map _

/-- Claim C3: for every valid untruncated N-leaf linkage with matching
geometry, one node-reconstruction pass produces exactly 2N-1 nodes: the N
leaves (type `leaf`, ids `0..N-1` in display order) plus N-1 merge nodes
whose ids are unique and form the contiguous range `N..2N-2`; no
coordinate key in the registry is overwritten by a different node within
the pass (the registry keys are nodup and its size equals the number of
insertions, 2N-1). -/
theorem build_node_count_and_ids (inst : InstanceData) (cd : ClusteringData)
    (pos : ℕ → ℚ × ℚ) (piFun : ℕ → ℕ) (N : ℕ) (lf : Option LabelF)
    (hf : Option HoverF) (V : ValidGeometry inst cd pos piFun N) :
    ∃ ns d2 lc hc, nodes_method [] inst lf hf = (.ok ns, d2, lc, hc) ∧
      ns.length = 2 * N - 1 ∧
      (ns.take N).map (fun e => e.id) = inst.leaves ∧
      inst.leaves.Perm (List.range N) ∧
      (∀ e ∈ ns.take N, e.type = "leaf") ∧
      ((ns.drop N).map (fun e => e.id)).Nodup ∧
      ((ns.drop N).map (fun e => e.id)).Perm
        ((List.range (N - 1)).map (fun k => N + k)) ∧
      (d2.map Prod.fst).Nodup ∧ d2.length = 2 * N - 1 := by
  have hNpos := V.N_pos
  obtain ⟨d2, hrun, hinv⟩ := nodes_method_valid V lf hf
  unfold BuildInv at hinv
  obtain ⟨hk, hi, h3, h4⟩ := hinv
  have hSlen : (SList inst.leaves N piFun (N - 1)).length = 2 * N - 1 := by
    rw [SList, List.length_append, List.length_map, List.length_range, V.hlv]
    omega
  have hd2len : d2.length = 2 * N - 1 := by
    have := congrArg List.length hk
    rw [List.length_map, List.length_map] at this
    rw [this, hSlen]
  have hids : (d2.map Prod.snd).map (fun e => e.id) = SList inst.leaves N piFun (N - 1) := by
    rw [List.map_map]
    exact hi
  have hnslen : (d2.map Prod.snd).length = 2 * N - 1 := by
    rw [List.length_map, hd2len]
  refine ⟨d2.map Prod.snd, d2, _, _, hrun, hnslen, ?_, V.hperm, ?_, ?_, ?_,
    hk ▸ SList_map_pos_nodup V (le_refl _), hd2len⟩
  · rw [List.map_take, hids, SList, ← V.hlv, List.take_left]
  · intro e he
    have hemem : e ∈ d2.map Prod.snd := List.mem_of_mem_take he
    obtain ⟨p, hp, hpe⟩ := List.mem_map.mp hemem
    have heid : e.id ∈ inst.leaves := by
      have h1 : e.id ∈ ((d2.map Prod.snd).take N).map (fun e => e.id) :=
        List.mem_map_of_mem _ he
      rw [List.map_take, hids, SList, ← V.hlv, List.take_left] at h1
      exact h1
    have := V.leaves_mem_lt _ heid
    rw [← hpe]
    exact h3 p hp (by rw [hpe]; exact this)
  · have hdropids : ((d2.map Prod.snd).drop N).map (fun e => e.id)
        = (List.range (N - 1)).map (fun t => N + piFun t) := by
      rw [List.map_drop, hids, SList, ← V.hlv, List.drop_left]
    have hpermmap := perm_shift_aux V
    rw [hdropids]
    exact (hpermmap.nodup_iff).mpr (nodup_shift_aux N)
  · have hdropids : ((d2.map Prod.snd).drop N).map (fun e => e.id)
        = (List.range (N - 1)).map (fun t => N + piFun t) := by
      rw [List.map_drop, hids, SList, ← V.hlv, List.drop_left]
    rw [hdropids]
    exact perm_shift_aux V

/-! ### Counting cluster-typed nodes -/

theorem countP_cluster_eq (N : ℕ) (leaders : List ℕ) :
    ∀ (d : NodeDict) (S : List ℕ),
      d.map (fun e => e.2.id) = S →
      (∀ e ∈ d, e.2.id < N → e.2.type = "leaf") →
      (∀ e ∈ d, N ≤ e.2.id → (e.2.type = "cluster" ↔ e.2.id ∈ leaders)) →
      (d.map Prod.snd).countP (fun e => decide (e.type = "cluster"))
        = S.countP (fun i => decide (N ≤ i ∧ i ∈ leaders))
  | [], S, hi, _, _ => by
    have : S = [] := by simpa using hi.symm
    subst this
    simp
  | e :: d, S, hi, h3, h4 => by
    match S, hi with
    | s :: S, hi =>
      simp only [List.map_cons, List.cons.injEq] at hi
      rw [List.map_cons, List.countP_cons, List.countP_cons]
      have hrec := countP_cluster_eq N leaders d S hi.2
        (fun x hx => h3 x (by simp [hx])) (fun x hx => h4 x (by simp [hx]))
      rw [hrec]
      congr 1
      by_cases hlt : e.2.id < N
      · have hty := h3 e (by simp) hlt
        have hs : s = e.2.id := hi.1.symm
        subst hs
        have hnot : ¬ (N ≤ e.2.id ∧ e.2.id ∈ leaders) := fun hcon =>
          absurd hcon.1 (by omega)
        rw [hty]
        simp [hnot]
      · have hiff := h4 e (by simp) (by omega)
        have hs : s = e.2.id := hi.1.symm
        subst hs
        have h1 : decide (e.2.type = "cluster") = decide (e.2.id ∈ leaders) :=
          decide_eq_decide.mpr hiff

        rw [h1]
        have h2 : decide (N ≤ e.2.id ∧ e.2.id ∈ leaders)
            = decide (e.2.id ∈ leaders) := by
          apply decide_eq_decide.mpr
          constructor
          · exact fun h => h.2
          · exact fun h => ⟨by omega, h⟩
        rw [h2]

theorem countP_mem_eq_length (L : List ℕ) (n r : ℕ) (hLnd : L.Nodup)
    (hsub : ∀ x ∈ L, n ≤ x ∧ x < n + r) :
    (List.range r).countP (fun k => decide (n ≤ n + k ∧ n + k ∈ L)) = L.length := by
  rw [List.countP_eq_length_filter]
  have hfnd : ((List.range r).filter (fun k => decide (n ≤ n + k ∧ n + k ∈ L))).Nodup :=
    List.Nodup.filter _ (List.nodup_range r)
  have hmnd : (((List.range r).filter
      (fun k => decide (n ≤ n + k ∧ n + k ∈ L))).map (fun k => n + k)).Nodup :=
    List.Nodup.map_on (fun t1 _ t2 _ h => by omega) hfnd
  have hperm : (((List.range r).filter
      (fun k => decide (n ≤ n + k ∧ n + k ∈ L))).map (fun k => n + k)).Perm L := by
    rw [List.perm_ext_iff_of_nodup hmnd hLnd]
    intro x
    constructor
    · intro hx
      obtain ⟨k, hk, rfl⟩ := List.mem_map.mp hx
      have := List.of_mem_filter hk
      simp only [decide_eq_true_eq] at this
      exact this.2
    · intro hx
      obtain ⟨hnx, hxr⟩ := hsub x hx
      refine List.mem_map.mpr ⟨x - n, ?_, by omega⟩
      refine List.mem_filter.mpr ⟨List.mem_range.mpr (by omega), ?_⟩
      have hxn : n + (x - n) = x := by omega
      simp [hxn, hx, hnx]
  have := hperm.length_eq
  rw [List.length_map] at this
  exact this

/-- Claim C1 (amended): during node reconstruction every merge node's type
is `cluster` iff its merged id is in the leader set (and then its cluster
label is the flat-cluster id paired with that leader); otherwise it is
`subcluster` when both children have type in {leaf, subcluster} and
`supercluster` in all remaining cases.  Consequently, for a valid cut in
which every leader is a merge node (ids in `N..2N-2`; in particular no
singleton flat clusters), exactly as many nodes have type `cluster` as
there are flat clusters (= entries of the cached leaders arrays). -/
theorem node_classification_and_cluster_count :
    (∀ (cd : ClusteringData) (scheme : List (String × String))
        (mm : List ((ℕ × ℕ) × ℕ)) (lf : Option LabelF) (hf : Option HoverF)
        (d : NodeDict) (x y : Quad) (color : String) (d2 : NodeDict)
        (nodeJ : ClusterNode) (dl dh : ℕ),
      processMerge cd scheme mm lf hf d x y color = .ok (d2, nodeJ, dl, dh) →
      ∃ R L m, pyGet d (x.q3, y.q3) = some R ∧ pyGet d (x.q0, y.q0) = some L ∧
        pyGet mm (L.id, R.id) = some m ∧
        (nodeJ.type = "cluster" ↔ m ∈ cd.leaders) ∧
        (m ∈ cd.leaders → ∃ q, (cd.leaders.zip cd.flat_cluster_ids).find?
            (fun q => decide (q.1 = m)) = some q ∧ nodeJ.cluster_id = some q.2) ∧
        (m ∉ cd.leaders → (((R.type = "leaf" ∨ R.type = "subcluster") ∧
            (L.type = "leaf" ∨ L.type = "subcluster")) → nodeJ.type = "subcluster")) ∧
        (m ∉ cd.leaders → (¬ ((R.type = "leaf" ∨ R.type = "subcluster") ∧
            (L.type = "leaf" ∨ L.type = "subcluster")) →
          nodeJ.type = "supercluster"))) ∧
    (∀ (inst : InstanceData) (cd : ClusteringData) (pos : ℕ → ℚ × ℚ)
        (piFun : ℕ → ℕ) (N : ℕ) (lf : Option LabelF) (hf : Option HoverF),
      ValidGeometry inst cd pos piFun N →
      cd.leaders.Nodup →
      (∀ l ∈ cd.leaders, N ≤ l ∧ l < 2 * N - 1) →
      ∃ ns d2 lc hc, nodes_method [] inst lf hf = (.ok ns, d2, lc, hc) ∧
        ns.countP (fun e => decide (e.type = "cluster")) = cd.leaders.length ∧
        cd.leaders.length = cd.flat_cluster_ids.length) := by
  constructor
  · intro cd scheme mm lf hf d x y color d2 nodeJ dl dh h
    obtain ⟨R, L, m, hR, hL, hm, -, -, -, -, -, -, c10, c11, c12⟩ :=
      processMerge_ok_elim h
    refine ⟨R, L, m, hR, hL, hm, ?_, fun hmem => (c10 hmem).2, fun hmem hsub =>
      (c11 hmem hsub).1, fun hmem hsub => (c12 hmem hsub).1⟩
    constructor
    · intro hty
      by_contra hmem
      by_cases hsub : (R.type = "leaf" ∨ R.type = "subcluster") ∧
          (L.type = "leaf" ∨ L.type = "subcluster")
      · have := (c11 hmem hsub).1
        rw [this] at hty
        exact absurd hty (by decide)
      · have := (c12 hmem hsub).1
        rw [this] at hty
        exact absurd hty (by decide)
    · intro hmem
      exact (c10 hmem).1
  · intro inst cd pos piFun N lf hf V hlead_nodup hlead_range
    have hNpos := V.N_pos
    obtain ⟨d2, hrun, hinv⟩ := nodes_method_valid V lf hf
    unfold BuildInv at hinv
    obtain ⟨hk, hi, h3, h4⟩ := hinv
    refine ⟨d2.map Prod.snd, d2, _, _, hrun, ?_, V.hlead_len⟩
    rw [countP_cluster_eq N cd.leaders d2 _ hi h3 h4]
    rw [SList, List.countP_append]
    have hzero : inst.leaves.countP (fun i => decide (N ≤ i ∧ i ∈ cd.leaders)) = 0 := by
      rw [List.countP_eq_zero]
      intro a ha
      have := V.leaves_mem_lt a ha
      simp only [decide_eq_true_eq, not_and]
      intro hNa
      omega
    rw [hzero, Nat.zero_add]
    rw [List.Perm.countP_eq _ (perm_shift_aux V)]
    rw [List.countP_map]
    have hfin := countP_mem_eq_length cd.leaders N (N - 1) hlead_nodup
      (fun x hx => by
        obtain ⟨h1, h2⟩ := hlead_range x hx
        constructor
        · exact h1
        · omega)
    exact hfin

theorem merge_map_eq_zip (cd : ClusteringData)
    (hpairs : ∀ k1 < cd.linkage_matrix.length, ∀ k2 < cd.linkage_matrix.length,
      (cd.linkage_matrix.getD k1 (0, 0, 0, 0)).1
          = (cd.linkage_matrix.getD k2 (0, 0, 0, 0)).1 →
      (cd.linkage_matrix.getD k1 (0, 0, 0, 0)).2.1
          = (cd.linkage_matrix.getD k2 (0, 0, 0, 0)).2.1 →
      k1 = k2) :
    get_merge_map cd = (cd.linkage_matrix.map (fun r => (r.1, r.2.1))).zip
      ((List.range cd.linkage_matrix.length).map
        (fun k => cd.linkage_matrix.length + 1 + k)) := by
  have hcompnd : (cd.linkage_matrix.map (fun r => (r.1, r.2.1))).Nodup := by
    rw [List.nodup_iff_injective_get]
    intro i1 i2 hg
    have hi1 : (i1 : ℕ) < cd.linkage_matrix.length := by
      have := i1.isLt; simpa using this
    have hi2 : (i2 : ℕ) < cd.linkage_matrix.length := by
      have := i2.isLt; simpa using this
    rw [List.get_eq_getElem, List.get_eq_getElem] at hg
    simp only [List.getElem_map, Prod.mk.injEq] at hg
    have := hpairs i1 hi1 i2 hi2
      (by rw [List.getD_eq_getElem _ _ hi1, List.getD_eq_getElem _ _ hi2]; exact hg.1)
      (by rw [List.getD_eq_getElem _ _ hi1, List.getD_eq_getElem _ _ hi2]; exact hg.2)
    exact Fin.ext this
  have hkeys : (((cd.linkage_matrix.map (fun r => (r.1, r.2.1))).zip
        ((List.range cd.linkage_matrix.length).map
          (fun k => cd.linkage_matrix.length + 1 + k))).map Prod.fst)
      = cd.linkage_matrix.map (fun r => (r.1, r.2.1)) :=
    List.map_fst_zip _ _ (by simp)
  unfold get_merge_map
  exact pyDict_eq_self _ (by rw [hkeys]; exact hcompnd)

/-- Claim C2 (amended): the merge map is keyed by the ordered child-id pair
exactly as stored in the linkage row: for every row `k` merging `(a, b)`,
looking up `(a, b)` yields `N + k` (a reversed `(b, a)` lookup is not
defined unless it happens to coincide with another row's stored pair),
distinct rows map to distinct ids, the assigned ids are exactly `N..2N-2`
in table order, and node reconstruction resolves every merge's id via this
map from its two children's ids (left child first). -/
theorem merge_map_ordered_bijection :
    (∀ (cd : ClusteringData),
      (∀ k1 < cd.linkage_matrix.length, ∀ k2 < cd.linkage_matrix.length,
        (cd.linkage_matrix.getD k1 (0, 0, 0, 0)).1
            = (cd.linkage_matrix.getD k2 (0, 0, 0, 0)).1 →
        (cd.linkage_matrix.getD k1 (0, 0, 0, 0)).2.1
            = (cd.linkage_matrix.getD k2 (0, 0, 0, 0)).2.1 →
        k1 = k2) →
      ∀ k, k < cd.linkage_matrix.length →
        pyGet (get_merge_map cd)
            ((cd.linkage_matrix.getD k (0, 0, 0, 0)).1,
              (cd.linkage_matrix.getD k (0, 0, 0, 0)).2.1)
          = some (cd.linkage_matrix.length + 1 + k)) ∧
    (∀ (cd : ClusteringData),
      (∀ k1 < cd.linkage_matrix.length, ∀ k2 < cd.linkage_matrix.length,
        (cd.linkage_matrix.getD k1 (0, 0, 0, 0)).1
            = (cd.linkage_matrix.getD k2 (0, 0, 0, 0)).1 →
        (cd.linkage_matrix.getD k1 (0, 0, 0, 0)).2.1
            = (cd.linkage_matrix.getD k2 (0, 0, 0, 0)).2.1 →
        k1 = k2) →
      (get_merge_map cd).map Prod.snd
          = (List.range cd.linkage_matrix.length).map
            (fun k => cd.linkage_matrix.length + 1 + k) ∧
        ((get_merge_map cd).map Prod.snd).Nodup) ∧
    (∀ (cd : ClusteringData) (scheme : List (String × String))
        (lf : Option LabelF) (hf : Option HoverF) (d : NodeDict) (x y : Quad)
        (color : String) (d2 : NodeDict) (nodeJ : ClusterNode) (dl dh : ℕ),
      processMerge cd scheme (get_merge_map cd) lf hf d x y color
          = .ok (d2, nodeJ, dl, dh) →
      ∃ R L, pyGet d (x.q3, y.q3) = some R ∧ pyGet d (x.q0, y.q0) = some L ∧
        pyGet (get_merge_map cd) (L.id, R.id) = some nodeJ.id) := by
  refine ⟨fun cd hp k hk => get_merge_map_at cd hp k hk, ?_, ?_⟩
  · intro cd hp
    rw [merge_map_eq_zip cd hp]
    constructor
    · exact List.map_snd_zip _ _ (by simp)
    · rw [List.map_snd_zip _ _ (by simp)]
      refine List.Nodup.map_on ?_ (List.nodup_range _)
      intro t1 _ t2 _ h
      omega
  · intro cd scheme lf hf d x y color d2 nodeJ dl dh h
    obtain ⟨R, L, m, hR, hL, hm, hid, -⟩ := processMerge_ok_elim h
    exact ⟨R, L, hR, hL, by rw [hid]; exact hm⟩

/-- Claim C4 (amended): a merge whose child foot coordinate (x3, y3) or
(x0, y0) was never registered raises a `KeyError` naming exactly that
coordinate, and the failing call returns no node set; however, because the
registry is a class attribute mutated in place, the nodes registered
before the failure persist, and any subsequent call on the non-empty
registry short-circuits and returns exactly that partial node
collection. -/
theorem order_violation_error_and_partial_registry :
    (∀ (cd : ClusteringData) (scheme : List (String × String))
        (mm : List ((ℕ × ℕ) × ℕ)) (lf : Option LabelF) (hf : Option HoverF)
        (d : NodeDict) (x y : Quad) (color : String),
      pyGet d (x.q3, y.q3) = none →
      processMerge cd scheme mm lf hf d x y color
        = .error (.coordKey (x.q3, y.q3))) ∧
    (∀ (cd : ClusteringData) (scheme : List (String × String))
        (mm : List ((ℕ × ℕ) × ℕ)) (lf : Option LabelF) (hf : Option HoverF)
        (d : NodeDict) (x y : Quad) (color : String) (R : ClusterNode),
      pyGet d (x.q3, y.q3) = some R → pyGet d (x.q0, y.q0) = none →
      processMerge cd scheme mm lf hf d x y color
        = .error (.coordKey (x.q0, y.q0))) ∧
    (∀ (nd : NodeDict) (inst : InstanceData) (lf : Option LabelF)
        (hf : Option HoverF), nd ≠ [] →
      nodes_method nd inst lf hf = (.ok (nd.map Prod.snd), nd, 0, 0)) := by
  refine ⟨?_, ?_, ?_⟩
  · intro cd scheme mm lf hf d x y color h
    unfold processMerge
    simp only [h]
  · intro cd scheme mm lf hf d x y color R h3 h0
    unfold processMerge
    simp only [h3, h0]
  · intro nd inst lf hf h
    cases nd with
    | nil => exact absurd rfl h
    | cons p l => rfl

/-- Claim C5: ingesting a geometry record that lacks any of the six
required fields raises an error whose message names every missing field —
not just the first — and leaves the ingest state unchanged (nothing is
stored before the error is raised). -/
theorem missing_geometry_fields_all_reported (inst : InstanceData)
    (R : ScipyRecordOpt) (h : missingKeys R ≠ []) :
    set_scipy_dendrogram inst R = (some (missingKeys R), inst) ∧
    (∀ k, k ∈ missingKeys R ↔ k ∈ required_keys ∧ hasKey R k = false) := by
  constructor
  · cases hmk : missingKeys R with
    | nil => exact absurd hmk h
    | cons a l =>
      unfold set_scipy_dendrogram
      rw [hmk]
      rfl
  · intro k
    unfold missingKeys
    rw [List.mem_filter]
    simp

/-- Claim C6: node computation is idempotent and memoized through the
registry: a second `_nodes` call on the same state with unchanged inputs
returns a node collection equal to the first result (same ids,
coordinates, types — indeed the same list), short-circuits on the
non-empty registry with zero additional callback invocations, and across
both calls each provided callback was invoked exactly once per processed
row — hence exactly once per node whenever the registry holds one entry
per row. -/
theorem nodes_memoized_idempotent (inst : InstanceData) (lf : Option LabelF)
    (hf : Option HoverF) (ns : List ClusterNode) (d2 : NodeDict) (lc hc : ℕ)
    (h : nodes_method [] inst lf hf = (.ok ns, d2, lc, hc)) :
    nodes_method d2 inst lf hf = (.ok ns, d2, 0, 0) ∧
    ns = d2.map Prod.snd ∧
    lc = (if lf.isSome then
        (zip3 inst.leaf_positions inst.leaves inst.leaves_color_list).length +
        (zip3 inst.icoord inst.dcoord inst.link_colors).length else 0) ∧
    hc = (if hf.isSome then
        (zip3 inst.leaf_positions inst.leaves inst.leaves_color_list).length +
        (zip3 inst.icoord inst.dcoord inst.link_colors).length else 0) ∧
    (d2.length = (zip3 inst.leaf_positions inst.leaves inst.leaves_color_list).length +
        (zip3 inst.icoord inst.dcoord inst.link_colors).length →
      lc = (if lf.isSome then ns.length else 0) ∧
      hc = (if hf.isSome then ns.length else 0)) := by
  have hshape := nodes_method_ok_shape h
  have hmain : nodes_method d2 inst lf hf = (.ok ns, d2, 0, 0) ∧
      lc = (if lf.isSome then
          (zip3 inst.leaf_positions inst.leaves inst.leaves_color_list).length +
          (zip3 inst.icoord inst.dcoord inst.link_colors).length else 0) ∧
      hc = (if hf.isSome then
          (zip3 inst.leaf_positions inst.leaves inst.leaves_color_list).length +
          (zip3 inst.icoord inst.dcoord inst.link_colors).length else 0) := by
    unfold nodes_method at h
    split at h
    · split at h
      · exact absurd h (by simp)
      · rename_i cd hcd
        split at h
        · exact absurd h (by simp)
        · rename_i out aL dL lcL hcL heqL
          simp only [] at h
          split at h
          · exact absurd h (by simp)
          · rename_i out2 aM dM lcM hcM heqM
            simp only [Prod.mk.injEq, Except.ok.injEq] at h
            obtain ⟨hns, hd2, hlc, hhc⟩ := h
            obtain ⟨hlcL, hhcL⟩ := processLeaves_counts _ _ _ _ _ _ _ _ _ _ _ heqL
            obtain ⟨hlcM, hhcM⟩ := processMerges_counts _ _ _ _ _ _ _ _ _ _ _ _ heqM
            have hlcv : lc = (if lf.isSome then
                (zip3 inst.leaf_positions inst.leaves inst.leaves_color_list).length +
                (zip3 inst.icoord inst.dcoord inst.link_colors).length else 0) := by
              rw [← hlc, hlcM, hlcL]
              cases lf <;> simp
            have hhcv : hc = (if hf.isSome then
                (zip3 inst.leaf_positions inst.leaves inst.leaves_color_list).length +
                (zip3 inst.icoord inst.dcoord inst.link_colors).length else 0) := by
              rw [← hhc, hhcM, hhcL]
              cases hf <;> simp
            refine ⟨?_, hlcv, hhcv⟩
            by_cases hd2e : d2 = []
            · subst hd2e
              have hdM : dM = [] := hd2
              have hdL : dL = [] := by
                by_contra hdLne
                exact (processMerges_sticky _ _ _ _ _ _ _ _ _ _ _ _ _ heqM hdLne) hdM
              have hzL : zip3 inst.leaf_positions inst.leaves
                  inst.leaves_color_list = [] := by
                by_contra hne
                exact (processLeaves_ok_nonempty _ _ _ _ _ _ _ _ _ _ _ heqL hne) hdL
              rw [hdL] at heqM
              obtain ⟨hzM, -, -, -⟩ :=
                processMerges_ok_empty _ _ _ _ _ _ _ _ _ _ _ heqM
              have hns2 : ns = [] := by
                rw [← hns, hdM]
                rfl
              rw [hns2]
              simp only [nodes_method, List.isEmpty_nil, if_true, hcd, hzL, hzM,
                processLeaves, processMerges, List.map_nil]
            · cases hd2v : d2 with
              | nil => exact absurd hd2v hd2e
              | cons p l =>
                rw [← hd2v]
                have hstep2 : nodes_method d2 inst lf hf
                    = (.ok (d2.map Prod.snd), d2, 0, 0) := by
                  rw [hd2v]
                  rfl
                rw [hstep2, ← hshape]
    · rename_i hfalse
      exact absurd (by simp : List.isEmpty ([] : NodeDict) = true) hfalse
  refine ⟨hmain.1, hshape, hmain.2.1, hmain.2.2, ?_⟩
  intro hlen
  have hnslen : ns.length = d2.length := by rw [hshape, List.length_map]
  constructor
  · rw [hmain.2.1, hnslen, hlen]
  · rw [hmain.2.2, hnslen, hlen]

/-- Claim C7 (code observation): `_generate_dendrogram` constructs the
returned `Dendrogram` without passing `computed_nodes` (line 218), so even
when node computation is disabled the flag keeps its dataclass default
`True`, and `check_nodes(show_nodes=True)` raises nothing — the
nodes-not-computed error is unreachable.  This contradicts the documented
meaning of `computed_nodes` ("boolean indicating if Cluster Nodes were
computed at creation time") and makes `check_nodes` dead code. -/
theorem computed_nodes_flag_never_false (nd : NodeDict) (inst : InstanceData)
    (lf : Option LabelF) (hf : Option HoverF) (dgm : Dendrogram) (nd2 : NodeDict)
    (lc hc : ℕ)
    (h : generate_dendrogram nd inst false lf hf = (.ok dgm, nd2, lc, hc)) :
    dgm.computed_nodes = true ∧ dgm.nodes = [] ∧ check_nodes dgm true = .ok () := by
  unfold generate_dendrogram at h
  split at h
  · exact absurd h (by simp)
  · rename_i ls hls
    simp only [Bool.false_eq_true, if_false, Prod.mk.injEq, Except.ok.injEq] at h
    obtain ⟨h1, -⟩ := h
    rw [← h1]
    exact ⟨rfl, rfl, rfl⟩

/-- Claim C8: every merge node produced by reconstruction is placed at the
bracket's shoulder midpoint: its coordinate equals ((x1 + x2) / 2, y2) for
the merge's quadruple, and this is the key under which the node is
registered. -/
theorem merge_node_shoulder_midpoint (cd : ClusteringData)
    (scheme : List (String × String)) (mm : List ((ℕ × ℕ) × ℕ))
    (lf : Option LabelF) (hf : Option HoverF) (d : NodeDict) (x y : Quad)
    (color : String) (d2 : NodeDict) (nodeJ : ClusterNode) (dl dh : ℕ)
    (h : processMerge cd scheme mm lf hf d x y color = .ok (d2, nodeJ, dl, dh)) :
    nodeJ.x = (x.q1 + x.q2) / 2 ∧ nodeJ.y = y.q2 ∧
    d2 = pyDictInsert d ((x.q1 + x.q2) / 2, y.q2) nodeJ ∧
    pyGet d2 ((x.q1 + x.q2) / 2, y.q2) = some nodeJ := by
  obtain ⟨R, L, m, -, -, -, -, hx, hy, hins, -⟩ := processMerge_ok_elim h
  have harith : x.q1 + (x.q2 - x.q1) / 2 = (x.q1 + x.q2) / 2 := by ring
  rw [harith] at hx hins
  exact ⟨hx, hy, hins, by rw [hins]; exact pyGet_insert_self d _ nodeJ⟩

/-- Claim C9: once geometry has been ingested (the stored x-coordinate
array is non-empty), `create_dendrogram` ignores `truncate_mode`, `p`,
`sort_criteria`, `sort_descending`, `link_color_func` and
`leaf_label_func` entirely: two calls differing only in those arguments
produce identical results, built from the previously stored geometry. -/
theorem stored_geometry_ignores_layout_args (nd : NodeDict) (inst : InstanceData)
    (oracle : ClusteringData → ScipyArgs → ScipyRecord) (args1 args2 : ScipyArgs)
    (compute_nodes : Bool) (lf : Option LabelF) (hf : Option HoverF)
    (h : inst.icoord ≠ []) :
    create_dendrogram nd inst oracle args1 compute_nodes lf hf
      = create_dendrogram nd inst oracle args2 compute_nodes lf hf := by
  have hlen : ¬ (inst.icoord.length = 0) := by
    simp [List.length_eq_zero, h]
  unfold create_dendrogram
  rw [if_neg hlen, if_neg hlen]

/-- Claim C10: `BaseDendro.__init__` assigns only the color scheme and
leaves the class-level coordinate arrays and the coordinate-to-node
registry untouched; because the registry is a class attribute that is
never reset, a second instance constructed after another instance computed
nodes observes the non-empty registry, and its node computation returns
the first instance's nodes regardless of the second instance's own
data. -/
theorem init_shares_class_registry (cs : Option (List (String × String)))
    (inst1 : InstanceData) (lf : Option LabelF) (hf : Option HoverF)
    (ns : List ClusterNode) (g : NodeDict) (lc hc : ℕ)
    (h1 : nodes_method [] inst1 lf hf = (.ok ns, g, lc, hc)) (hg : g ≠ [])
    (inst2 : InstanceData) (lf2 : Option LabelF) (hf2 : Option HoverF) :
    BaseDendro_init cs g
      = ({ color_scheme := cs.getD defaultColorScheme }, g) ∧
    nodes_method (BaseDendro_init cs g).2 inst2 lf2 hf2 = (.ok ns, g, 0, 0) := by
  have hshape := nodes_method_ok_shape h1
  constructor
  · rfl
  · show nodes_method g inst2 lf2 hf2 = (.ok ns, g, 0, 0)
    cases g with
    | nil => exact absurd rfl hg
    | cons p l =>
      rw [hshape]
      rfl

/-! ### Counterexamples and witnesses -/

/-- Counterexample to C1 as stated: with a cut producing two singleton
flat clusters the leaders are leaf ids, no merge node is classified
`cluster`, and the build yields 0 cluster-typed nodes although there are
2 flat clusters. -/
theorem cluster_count_mismatch_singleton_leaders :
    ∃ ns d2 lc hc, nodes_method [] instB none none = (.ok ns, d2, lc, hc) ∧
      ns.countP (fun e => decide (e.type = "cluster")) = 0 ∧
      cdB.leaders.length = 2 ∧ cdB.cluster_assignments.dedup.length = 2 := by
  have V : ValidGeometry instB cdB posB (fun j => j) 2 := by
    constructor <;> first
      | decide
      | (intro j hj
         interval_cases j <;> norm_num [instB, cdB, posB])
  obtain ⟨d2, hrun, hinv⟩ := nodes_method_valid V none none
  unfold BuildInv at hinv
  obtain ⟨hk, hi, h3, h4⟩ := hinv
  refine ⟨d2.map Prod.snd, d2, _, _, hrun, ?_, by decide, by decide⟩
  rw [countP_cluster_eq 2 cdB.leaders d2 _ hi h3 h4]
  decide

/-- Witness for the amended C1 at the spec's 4-leaf scenario. -/
theorem node_classification_and_cluster_count_witness :
    ∃ ns d2 lc hc, nodes_method [] instA none none = (.ok ns, d2, lc, hc) ∧
      ns.countP (fun e => decide (e.type = "cluster")) = cdA.leaders.length ∧
      cdA.leaders.length = cdA.flat_cluster_ids.length :=
  node_classification_and_cluster_count.2 instA cdA posA (fun j => j) 4 none none
    (by constructor <;> first
      | decide
      | (intro j hj
         interval_cases j <;> norm_num [instA, cdA, posA]))
    (by decide) (by decide)

/-- Counterexample to C2 as stated: the merge map of the one-row linkage
`(0, 1) → 2` answers the lookup in row order but not in reversed order. -/
theorem merge_map_reversed_pair_lookup_fails :
    pyGet (get_merge_map cdB) (1, 0) = none ∧
    pyGet (get_merge_map cdB) (0, 1) = some 2 := by
  decide

/-- Witness for the amended C2 at the 4-leaf scenario's linkage. -/
theorem merge_map_ordered_bijection_witness :
    pyGet (get_merge_map cdA)
        ((cdA.linkage_matrix.getD 0 (0, 0, 0, 0)).1,
          (cdA.linkage_matrix.getD 0 (0, 0, 0, 0)).2.1)
      = some (cdA.linkage_matrix.length + 1 + 0) ∧
    ((get_merge_map cdA).map Prod.snd
        = (List.range cdA.linkage_matrix.length).map
          (fun k => cdA.linkage_matrix.length + 1 + k) ∧
      ((get_merge_map cdA).map Prod.snd).Nodup) :=
  ⟨merge_map_ordered_bijection.1 cdA (by decide) 0 (by decide),
   merge_map_ordered_bijection.2.1 cdA (by decide)⟩

/-- Witness for C3 at the spec's 4-leaf scenario. -/
theorem build_node_count_and_ids_witness :
    ∃ ns d2 lc hc, nodes_method [] instA none none = (.ok ns, d2, lc, hc) ∧
      ns.length = 2 * 4 - 1 ∧
      (ns.take 4).map (fun e => e.id) = instA.leaves ∧
      instA.leaves.Perm (List.range 4) ∧
      (∀ e ∈ ns.take 4, e.type = "leaf") ∧
      ((ns.drop 4).map (fun e => e.id)).Nodup ∧
      ((ns.drop 4).map (fun e => e.id)).Perm
        ((List.range (4 - 1)).map (fun k => 4 + k)) ∧
      (d2.map Prod.fst).Nodup ∧ d2.length = 2 * 4 - 1 :=
  build_node_count_and_ids instA cdA posA (fun j => j) 4 none none
    (by constructor <;> first
      | decide
      | (intro j hj
         interval_cases j <;> norm_num [instA, cdA, posA]))

/-- Counterexample to C4 as stated: after the failing build the partially
populated registry persists, and a second call returns exactly the two
leaf nodes registered before the failing merge. -/
theorem partial_nodes_after_failed_build :
    (nodes_method [] instC none none).1 = .error (.coordKey (99, 0)) ∧
    (nodes_method [] instC none none).2.1.length = 2 ∧
    nodes_method (nodes_method [] instC none none).2.1 instC none none
      = (.ok ((nodes_method [] instC none none).2.1.map Prod.snd),
          (nodes_method [] instC none none).2.1, 0, 0) ∧
    (((nodes_method [] instC none none).2.1.map Prod.snd).map (fun e => e.type))
      = ["leaf", "leaf"] := by
  decide

/-- Witness for the amended C4 at scenario C. -/
theorem order_violation_error_and_partial_registry_witness :
    processMerge cdB schemeB (get_merge_map cdB) none none []
        ⟨5, 5, 99, 99⟩ ⟨0, 1, 1, 0⟩ "C0" = .error (.coordKey (99, 0)) ∧
    nodes_method dictB instC none none = (.ok (dictB.map Prod.snd), dictB, 0, 0) :=
  ⟨order_violation_error_and_partial_registry.1 cdB schemeB (get_merge_map cdB)
      none none [] ⟨5, 5, 99, 99⟩ ⟨0, 1, 1, 0⟩ "C0" (by decide),
    order_violation_error_and_partial_registry.2.2 dictB instC none none (by decide)⟩

/-- Witness for C5 at a record missing both color-key fields. -/
theorem missing_geometry_fields_all_reported_witness :
    set_scipy_dendrogram instEmpty recMissingTwo
        = (some (missingKeys recMissingTwo), instEmpty) ∧
    (∀ k, k ∈ missingKeys recMissingTwo ↔
      k ∈ required_keys ∧ hasKey recMissingTwo k = false) :=
  missing_geometry_fields_all_reported instEmpty recMissingTwo (by decide)

/-- Witness for C6 at the single-leaf scenario D. -/
theorem nodes_memoized_idempotent_witness :
    nodes_method dictD instD lfD none = (.ok [nodeD], dictD, 0, 0) ∧
    [nodeD] = dictD.map Prod.snd ∧
    1 = (if lfD.isSome then
        (zip3 instD.leaf_positions instD.leaves instD.leaves_color_list).length +
        (zip3 instD.icoord instD.dcoord instD.link_colors).length else 0) ∧
    0 = (if (none : Option HoverF).isSome then
        (zip3 instD.leaf_positions instD.leaves instD.leaves_color_list).length +
        (zip3 instD.icoord instD.dcoord instD.link_colors).length else 0) ∧
    (dictD.length
        = (zip3 instD.leaf_positions instD.leaves instD.leaves_color_list).length +
          (zip3 instD.icoord instD.dcoord instD.link_colors).length →
      1 = (if lfD.isSome then [nodeD].length else 0) ∧
      0 = (if (none : Option HoverF).isSome then [nodeD].length else 0)) :=
  nodes_memoized_idempotent instD lfD none [nodeD] dictD 1 0 (by decide)

/-- Witness for the C7 observation on an empty instance. -/
theorem computed_nodes_flag_never_false_witness :
    dgm0.computed_nodes = true ∧ dgm0.nodes = [] ∧ check_nodes dgm0 true = .ok () :=
  computed_nodes_flag_never_false [] instEmpty none none dgm0 [] 0 0 (by decide)

/-- Witness for C8 at scenario B's merge step. -/
theorem merge_node_shoulder_midpoint_witness :
    ∃ d2 nd, processMerge cdB schemeB (get_merge_map cdB) none none dictB
        ⟨5, 5, 15, 15⟩ ⟨0, 1, 1, 0⟩ "C0" = .ok (d2, nd, 0, 0) ∧
      nd.x = ((5 : ℚ) + 15) / 2 ∧ nd.y = (1 : ℚ) ∧
      d2 = pyDictInsert dictB (((5 : ℚ) + 15) / 2, (1 : ℚ)) nd ∧
      pyGet d2 (((5 : ℚ) + 15) / 2, (1 : ℚ)) = some nd := by
  obtain ⟨d2, nd, hstep, -⟩ := @processMerge_run cdB schemeB (get_merge_map cdB)
    none none dictB ⟨5, 5, 15, 15⟩ ⟨0, 1, 1, 0⟩ "C0" nodeB1 nodeB0 2
    (by decide) (by decide) (by decide) "#abc" (by decide) (Or.inl (by decide))
  obtain ⟨h1, h2, h3, h4⟩ := merge_node_shoulder_midpoint cdB schemeB
    (get_merge_map cdB) none none dictB ⟨5, 5, 15, 15⟩ ⟨0, 1, 1, 0⟩ "C0"
    d2 nd 0 0 hstep
  exact ⟨d2, nd, hstep, h1, h2, h3, h4⟩

/-- Witness for C9: with stored geometry, default and non-default layout
arguments give identical results. -/
theorem stored_geometry_ignores_layout_args_witness :
    create_dendrogram [] instB oracleTrivial {} true none none
      = create_dendrogram [] instB oracleTrivial argsAlt true none none :=
  stored_geometry_ignores_layout_args [] instB oracleTrivial {} argsAlt true
    none none (by decide)

/-- Witness for C10: a second instance built over the registry scenario D
left behind — even one carrying scenario B's data — returns scenario D's
node. -/
theorem init_shares_class_registry_witness :
    BaseDendro_init none dictD
        = ({ color_scheme := defaultColorScheme }, dictD) ∧
    nodes_method (BaseDendro_init none dictD).2 instB none none
      = (.ok [nodeD], dictD, 0, 0) :=
  init_shares_class_registry none instD lfD none [nodeD] dictD 1 0
    (by decide) (by decide) instB none none

end Idendro
